import Mathlib

/-!
# Value decomposition and recomposition (`src/values.js`)

A shallow embedding of the value engine of `src/values.js`: `decomposeValue`,
the five recomposers with their dispatch table, `getRelativeValue` and
`getFunctionValue`.

Conventions of the embedding.

* JavaScript numbers are idealised as `JSNum`: `NaN`, the two infinities, or an
  exact rational.  Rounding to binary64, overflow and the sign of zero are not
  modelled.
* JavaScript values are the first-order type `JSVal`.  Objects are plain
  objects: a path descriptor (`isPath` set, a `totalLength`) or an object with
  no property the engine reads.
* A thrown `TypeError` is the result `none`.
* The modules `consts.js`, `utils.js`, `colors.js` and `svg.js` are imported by
  `values.js` but are not part of the sources.  Their functions are the fields
  of `Ext`; their constants are defined here from the specification.
-/

namespace Values

/-! ## Numbers -/

/-- JavaScript numbers with exact finite arithmetic. -/
inductive JSNum where
  | nan
  | pinf
  | ninf
  | fin (q : ℚ)
  deriving DecidableEq

namespace JSNum

/-- The global `isNaN` on a number. -/
def isNaN : JSNum → Bool
  | nan => true
  | _ => false

/-- Finite numbers. -/
def isFinite : JSNum → Bool
  | fin _ => true
  | _ => false

/-- Unary minus. -/
def neg : JSNum → JSNum
  | nan => nan
  | pinf => ninf
  | ninf => pinf
  | fin q => fin (-q)

/-- Number addition.  A finite sum is the exact rational sum: it is not rounded
and does not overflow to an infinity. -/
def add : JSNum → JSNum → JSNum
  | nan, _ => nan
  | _, nan => nan
  | pinf, ninf => nan
  | ninf, pinf => nan
  | pinf, _ => pinf
  | ninf, _ => ninf
  | fin _, pinf => pinf
  | fin _, ninf => ninf
  | fin a, fin b => fin (a + b)

/-- Number subtraction.  A finite difference is exact and does not overflow. -/
def sub (a b : JSNum) : JSNum := add a (neg b)

/-- The product of an infinity (`pos` for `+∞`) with a finite number. -/
def mulInf (pos : Bool) (q : ℚ) : JSNum :=
  if q = 0 then nan else if (0 < q) = pos then pinf else ninf

/-- Number multiplication. -/
def mul : JSNum → JSNum → JSNum
  | nan, _ => nan
  | _, nan => nan
  | pinf, pinf => pinf
  | ninf, ninf => pinf
  | pinf, ninf => ninf
  | ninf, pinf => ninf
  | pinf, fin q => mulInf true q
  | ninf, fin q => mulInf false q
  | fin q, pinf => mulInf true q
  | fin q, ninf => mulInf false q
  | fin a, fin b => fin (a * b)

/-- Number division; the sign of a zero divisor is not modelled. -/
def div : JSNum → JSNum → JSNum
  | nan, _ => nan
  | _, nan => nan
  | pinf, pinf => nan
  | pinf, ninf => nan
  | ninf, pinf => nan
  | ninf, ninf => nan
  | pinf, fin q => if 0 ≤ q then pinf else ninf
  | ninf, fin q => if 0 ≤ q then ninf else pinf
  | fin _, pinf => fin 0
  | fin _, ninf => fin 0
  | fin a, fin b =>
    if b = 0 then (if a = 0 then nan else if 0 < a then pinf else ninf)
    else fin (a / b)

/-- The function `Math.round`: the nearest integer, halves going up. -/
def mathRound : JSNum → JSNum
  | fin q => fin ((q + 1 / 2).floor : ℚ)
  | x => x

end JSNum

/-! ## Number to string (`Number::toString`, radix 10) -/

/-- Drop the trailing zeros of a digit list. -/
def stripTrailingZeros (ds : List Char) : List Char :=
  (ds.reverse.dropWhile (fun c => c == '0')).reverse

/-- Exponent notation `d[.ddd]e±x` for the digits `ds` whose decimal point
stands after `n` digits. -/
def expForm (ds : List Char) (n : Int) : List Char :=
  let s := stripTrailingZeros ds
  let mant := match s with
    | [] => ['0']
    | [d] => [d]
    | d :: rest => d :: '.' :: rest
  let e := n - 1
  mant ++ ['e'] ++ (if e < 0 then ['-'] else ['+']) ++ Nat.toDigits 10 e.natAbs

/-- The least number of decimals, at most 25, after which `q` is an integer. -/
def decimalScale (q : ℚ) : Option Nat :=
  (List.range 26).find? (fun k => (q * (10 : ℚ) ^ k).den == 1)

/-- Decimal rendering of a positive rational.  A rational with no decimal
expansion of at most 25 decimals is cut after 20 decimals. -/
def posToChars (q : ℚ) : List Char :=
  let k := (decimalScale q).getD 20
  let ds := Nat.toDigits 10 (q * (10 : ℚ) ^ k).floor.natAbs
  let n : Int := (ds.length : Int) - (k : Int)
  if k = 0 then
    if ds.length ≤ 21 then ds else expForm ds n
  else if 0 < n ∧ n ≤ 21 then
    ds.take n.natAbs ++ ['.'] ++ ds.drop n.natAbs
  else if -6 < n ∧ n ≤ 0 then
    ['0', '.'] ++ List.replicate n.natAbs '0' ++ ds
  else expForm ds n

/-- Decimal rendering of a number. -/
def numToChars : JSNum → List Char
  | .nan => "NaN".data
  | .pinf => "Infinity".data
  | .ninf => "-Infinity".data
  | .fin q =>
    if q = 0 then ['0']
    else if q < 0 then '-' :: posToChars (-q)
    else posToChars q

/-- The string of a number. -/
def numToString (n : JSNum) : String := String.mk (numToChars n)

/-! ## String to number (`StringToNumber`) -/

/-- White space and line terminators stripped by `StringToNumber`. -/
def isStrWhiteSpace (c : Char) : Bool :=
  let v := c.toNat
  v == 9 || v == 10 || v == 11 || v == 12 || v == 13 || v == 32 || v == 0xA0
    || v == 0x1680 || (0x2000 ≤ v && v ≤ 0x200A) || v == 0x2028 || v == 0x2029
    || v == 0x202F || v == 0x205F || v == 0x3000 || v == 0xFEFF

/-- Strip white space at both ends. -/
def trimChars (cs : List Char) : List Char :=
  ((cs.dropWhile isStrWhiteSpace).reverse.dropWhile isStrWhiteSpace).reverse

/-- A decimal digit. -/
def isDigit (c : Char) : Bool := '0' ≤ c && c ≤ '9'

/-- The value of a digit in a radix up to 16, if it is one. -/
def digitValue (c : Char) : Option Nat :=
  if '0' ≤ c && c ≤ '9' then some (c.toNat - 48)
  else if 'a' ≤ c && c ≤ 'f' then some (c.toNat - 87)
  else if 'A' ≤ c && c ≤ 'F' then some (c.toNat - 55)
  else none

/-- The natural number written by `cs` in radix `r`; `none` when `cs` is empty
or holds a character that is not a digit of that radix. -/
def radixToNat (r : Nat) (cs : List Char) : Option Nat :=
  if cs = [] then none
  else cs.foldl (fun acc c =>
    match acc, digitValue c with
    | some n, some d => if d < r then some (r * n + d) else none
    | _, _ => none) (some 0)

/-- Split off the leading decimal digits. -/
def spanDigits (cs : List Char) : List Char × List Char := cs.span isDigit

/-- The value of decimal digits (zero for no digit). -/
def digitsToNat (ds : List Char) : Nat :=
  ds.foldl (fun n c => 10 * n + (c.toNat - 48)) 0

/-- The rational `(ip.fp) * 10 ^ e` of a decimal literal. -/
def decimalValue (ip fp : List Char) (e : Int) : ℚ :=
  let m : Nat := digitsToNat ip * 10 ^ fp.length + digitsToNat fp
  if 0 ≤ e then mkRat ((m * 10 ^ e.natAbs : Nat) : Int) (10 ^ fp.length)
  else mkRat (m : Int) (10 ^ (fp.length + e.natAbs))

/-- The exponent part `e[+-]digits` filling the whole of `cs`. -/
def parseExponent : List Char → Option Int
  | [] => some 0
  | c :: r =>
    if c == 'e' || c == 'E' then
      let (neg, ds) := match r with
        | '+' :: r1 => (false, r1)
        | '-' :: r1 => (true, r1)
        | _ => (false, r)
      if ds ≠ [] ∧ ds.all isDigit then
        some (if neg then -(digitsToNat ds : Int) else (digitsToNat ds : Int))
      else none
    else none

/-- An unsigned `StrDecimalLiteral` other than `Infinity`. -/
def parseUnsignedDecimal (cs : List Char) : Option ℚ :=
  let (ip, r1) := spanDigits cs
  let (fp, r2) := match r1 with
    | '.' :: r => spanDigits r
    | _ => ([], r1)
  if ip = [] ∧ fp = [] then none
  else (parseExponent r2).map (decimalValue ip fp)

/-- A signed or unsigned `StrDecimalLiteral`. -/
def parseDecimal (cs : List Char) : JSNum :=
  let (neg, body) := match cs with
    | '+' :: r => (false, r)
    | '-' :: r => (true, r)
    | _ => (false, cs)
  if body = "Infinity".data then (if neg then .ninf else .pinf)
  else match parseUnsignedDecimal body with
    | some q => .fin (if neg then -q else q)
    | none => .nan

/-- The abstract operation `StringToNumber`. -/
def stringToNumber (s : String) : JSNum :=
  match trimChars s.data with
  | [] => .fin 0
  | '0' :: x :: r =>
    if x == 'x' || x == 'X' then ((radixToNat 16 r).map (fun n => JSNum.fin n)).getD .nan
    else if x == 'o' || x == 'O' then ((radixToNat 8 r).map (fun n => JSNum.fin n)).getD .nan
    else if x == 'b' || x == 'B' then ((radixToNat 2 r).map (fun n => JSNum.fin n)).getD .nan
    else parseDecimal ('0' :: x :: r)
  | cs => parseDecimal cs

/-! ## Values of the language -/

/-- A path-position descriptor: an object whose `isPath` is set and that
carries a `totalLength`.  The field `ref` stands for the path it refers to. -/
structure PathRef where
  ref : Nat
  totalLength : JSNum
  deriving DecidableEq

/-- The JavaScript values the engine is given. -/
inductive JSVal where
  | undefined
  | null
  | bool (b : Bool)
  | num (n : JSNum)
  | str (s : String)
  | path (p : PathRef)
  | obj (ref : Nat)
  deriving DecidableEq

/-- The abstract operation `ToString` (objects are plain objects). -/
def toStr : JSVal → String
  | .undefined => "undefined"
  | .null => "null"
  | .bool true => "true"
  | .bool false => "false"
  | .num n => numToString n
  | .str s => s
  | .path _ => "[object Object]"
  | .obj _ => "[object Object]"

/-- The abstract operation `ToNumber`, the unary `+`. -/
def toNumber : JSVal → JSNum
  | .undefined => .nan
  | .null => .fin 0
  | .bool true => .fin 1
  | .bool false => .fin 0
  | .num n => n
  | .str s => stringToNumber s
  | .path _ => .nan
  | .obj _ => .nan

/-- The abstract operation `ToBoolean`. -/
def truthy : JSVal → Bool
  | .undefined => false
  | .null => false
  | .bool b => b
  | .num .nan => false
  | .num (.fin q) => q ≠ 0
  | .num _ => true
  | .str s => s ≠ ""
  | .path _ => true
  | .obj _ => true

/-- Values whose primitive form is a string, which makes `+` a concatenation. -/
def isStringLike : JSVal → Bool
  | .str _ => true
  | .path _ => true
  | .obj _ => true
  | _ => false

/-- The binary operator `+`. -/
def jsAdd (a b : JSVal) : JSVal :=
  if isStringLike a || isStringLike b then .str (toStr a ++ toStr b)
  else .num ((toNumber a).add (toNumber b))

/-- The binary operator `-`. -/
def jsSub (a b : JSVal) : JSVal := .num ((toNumber a).sub (toNumber b))

/-- The binary operator `*`. -/
def jsMul (a b : JSVal) : JSVal := .num ((toNumber a).mul (toNumber b))

/-- Reading an optional number field: an absent field reads `undefined`. -/
def optNum : Option JSNum → JSVal
  | some n => .num n
  | none => .undefined

/-- Reading an optional string field. -/
def optStr : Option String → JSVal
  | some s => .str s
  | none => .undefined

/-- Reading an optional path field. -/
def optPath : Option PathRef → JSVal
  | some p => .path p
  | none => .undefined

/-- Indexing an array of numbers: out of range reads `undefined`. -/
def idxNum (xs : List JSNum) (i : Nat) : JSVal := optNum xs[i]?

/-- Indexing an array of strings. -/
def idxStr (xs : List String) (i : Nat) : JSVal := optStr xs[i]?

/-! ## Imported modules -/

/-- The functions `values.js` imports from modules that are not part of the
sources: `round` (`utils.js`), `getPathProgress` (`svg.js`), `is.col`
(`utils.js`) and `convertColorStringValuesToRgbaArray` (`colors.js`). -/
structure Ext where
  round : JSVal → JSVal → JSVal
  getPathProgress : JSVal → JSVal → JSVal
  isCol : JSVal → Bool
  convertColorStringValuesToRgbaArray : JSVal → List JSNum

/-- Modelled from the spec: `emptyString` of `consts.js`, the empty unit. -/
def emptyString : String := ""

/-- Modelled from the spec: `openParenthesisString` of `consts.js`. -/
def openParenthesisString : String := "("

/-- Modelled from the spec: `closeParenthesisString` of `consts.js`, which
closes the parenthesized colour expression. -/
def closeParenthesisString : String := ")"

/-- Modelled from the spec: `rgbaString` of `consts.js`, the opening of an
`rgba(r,g,b,a)`-shaped string. -/
def rgbaString : String := "rgba("

/-- Modelled from the spec: `commaString` of `consts.js`, the fixed separator
of the channels. -/
def commaString : String := ","

/-- Modelled from the spec: `valueTypes` of `consts.js`, the five tags. -/
inductive ValueType where
  | NUMBER
  | UNIT
  | COLOR
  | PATH
  | COMPLEX
  deriving DecidableEq

/-- The numeric tag, the index into `recomposeValueFunctions`. -/
def ValueType.tag : ValueType → Nat
  | .NUMBER => 0
  | .UNIT => 1
  | .COLOR => 2
  | .PATH => 3
  | .COMPLEX => 4

/-! ## Regular expressions of `consts.js` -/

/-- The length of the numeric token `[-+]?\d*\.?\d+(?:e[-+]?\d+)?` (letters in
either case) at the start of `cs`, if there is one. -/
def numberPrefix (cs : List Char) : Option Nat :=
  let (sg, r) := match cs with
    | '+' :: r => (1, r)
    | '-' :: r => (1, r)
    | _ => (0, cs)
  let (d1, r1) := spanDigits r
  let mant : Option (Nat × List Char) :=
    match r1 with
    | '.' :: r2 =>
      let (d2, r3) := spanDigits r2
      if d2 ≠ [] then some (d1.length + 1 + d2.length, r3)
      else if d1 ≠ [] then some (d1.length, r1) else none
    | _ => if d1 ≠ [] then some (d1.length, r1) else none
  match mant with
  | none => none
  | some (m, rest) =>
    let ex : Nat := match rest with
      | e :: r4 =>
        if e == 'e' || e == 'E' then
          let (s2, r5) := match r4 with
            | '+' :: r => (1, r)
            | '-' :: r => (1, r)
            | _ => (0, r4)
          let d3 := (spanDigits r5).1
          if d3 ≠ [] then 1 + s2 + d3.length else 0
        else 0
      | [] => 0
    some (sg + m + ex)

/-- Modelled from the spec: `digitWithExponentRgx` of `consts.js`, which
matches a maximal numeric token, exponent notation included.  The result is the
length of the match that starts at the head of the input. -/
def digitWithExponentRgx (cs : List Char) : Option Nat := numberPrefix cs

/-- A letter `[a-z]`, in either case. -/
def isLetter (c : Char) : Bool := ('a' ≤ c && c ≤ 'z') || ('A' ≤ c && c ≤ 'Z')

/-- Modelled from the spec: `unitsExecRgx` of `consts.js`, `exec` of which
matches a whole string of the form number-then-unit and captures the number and
the unit; the unit is a run of letters or the percent sign. -/
def unitsExecRgx (s : String) : Option (String × String) :=
  match numberPrefix s.data with
  | none => none
  | some n =>
    let rest := s.data.drop n
    if rest ≠ [] ∧ (rest.all isLetter ∨ rest = ['%']) then
      some (String.mk (s.data.take n), String.mk rest)
    else none

/-- Modelled from the spec: `relativeValuesExecRgx` of `consts.js`, `exec` of
which matches one of the prefixes `+=`, `-=`, `*=` and returns it. -/
def relativeValuesExecRgx (s : String) : Option String :=
  match s.data with
  | c :: '=' :: _ =>
    if c == '+' || c == '-' || c == '*' then some (String.mk [c, '=']) else none
  | _ => none

/-- All the matches of a global regular expression, left to right; `skip`
characters belong to the previous match.  The expression `m` gives the length
of its match at the head of the input and matches no empty string. -/
def matchAllAux (m : List Char → Option Nat) : Nat → List Char → List (List Char)
  | _, [] => []
  | 0, c :: cs =>
    match m (c :: cs) with
    | some (n + 1) => (c :: cs).take (n + 1) :: matchAllAux m n cs
    | _ => matchAllAux m 0 cs
  | k + 1, _ :: cs => matchAllAux m k cs

/-- The pieces between the matches of a regular expression; `cur` is the piece
being read, reversed. -/
def splitAux (m : List Char → Option Nat) : Nat → List Char → List Char → List (List Char)
  | _, cur, [] => [cur.reverse]
  | 0, cur, c :: cs =>
    match m (c :: cs) with
    | some (n + 1) => cur.reverse :: splitAux m n [] cs
    | _ => splitAux m 0 (c :: cur) cs
  | k + 1, cur, _ :: cs => splitAux m k cur cs

/-- The method `String.prototype.match` with a global regular expression:
`none` (null) when nothing matches. -/
def strMatch (m : List Char → Option Nat) (s : String) : Option (List String) :=
  match matchAllAux m 0 s.data with
  | [] => none
  | ms => some (ms.map String.mk)

/-- The method `String.prototype.split` with a regular expression. -/
def strSplit (m : List Char → Option Nat) (s : String) : List String :=
  (splitAux m 0 [] s.data).map String.mk

/-! ## The data model -/

/-- The object built by `decomposeValue`; an absent field is `none`. -/
structure Value where
  type : ValueType
  number : Option JSNum := none
  unit : Option String := none
  operator : Option String := none
  numbers : Option (List JSNum) := none
  strings : Option (List String) := none
  path : Option PathRef := none
  deriving DecidableEq

/-- The tween read by the recomposers. -/
structure Tween where
  from_ : Value
  to_ : Value
  progress : JSNum
  round : JSVal
  deriving DecidableEq

/-! ## `getRelativeValue` -/

/-- The function `getRelativeValue`: a `switch` on the operator, with no
default case. -/
def getRelativeValue (x y operator : JSVal) : JSVal :=
  if operator = .str "+" then jsAdd x y
  else if operator = .str "-" then jsSub x y
  else if operator = .str "*" then jsMul x y
  else .undefined

/-! ## `getFunctionValue` -/

/-- What `getFunctionValue` is given: a plain value, or a function of the
target, its index and the size of the batch. -/
inductive FunctionValue where
  | value (v : JSVal)
  | fnc (f : JSVal → JSVal → JSVal → JSVal)

/-- The fields of an animatable that `getFunctionValue` reads. -/
structure Animatable where
  target : JSVal
  id : JSVal
  total : JSVal

/-- The function `getFunctionValue`: a value that is no function is returned
as it is; the result of a function is replaced by 0 when it is falsy. -/
def getFunctionValue (functionValue : FunctionValue) (animatable : Animatable) : JSVal :=
  match functionValue with
  | .value v => v
  | .fnc f =>
    let result := f animatable.target animatable.id animatable.total
    if truthy result then result else .num (.fin 0)

/-! ## `decomposeValue` -/

/-- The tail of `decomposeValue`, after the operator prefix was handled: `val`
is the value left to parse and `operator` the recorded operator. -/
def decomposeTail (E : Ext) (val : JSVal) (operator : Option String) : Value :=
  match unitsExecRgx (toStr val) with
  | some (n, u) =>
    { type := .UNIT, number := some (stringToNumber n), unit := some u, operator := operator }
  | none =>
    if truthy (optStr operator) then
      { type := .NUMBER, number := some (toNumber val), operator := operator }
    else if E.isCol val then
      { type := .COLOR, numbers := some (E.convertColorStringValuesToRgbaArray val),
        operator := operator }
    else
      let stringifiedVal := toStr (jsAdd val (.str emptyString))
      let matchedNumbers := strMatch digitWithExponentRgx stringifiedVal
      { type := .COMPLEX,
        numbers := some (match matchedNumbers with
          | some ms => ms.map stringToNumber
          | none => [.fin 0]),
        strings := some (strSplit digitWithExponentRgx stringifiedVal),
        operator := operator }

/-- The function `decomposeValue`.  The result `none` is a thrown `TypeError`:
reading `isPath` of `undefined` or `null`, or calling `slice` on a value that
has none. -/
def decomposeValue (E : Ext) (rawValue : JSVal) : Option Value :=
  let numberedVal := toNumber rawValue
  if !numberedVal.isNaN then
    some { type := .NUMBER, number := some numberedVal }
  else
    match rawValue with
    | .undefined => none
    | .null => none
    | .path p =>
      some { type := .PATH, path := some p, number := some p.totalLength,
             unit := some emptyString }
    | _ =>
      match relativeValuesExecRgx (toStr rawValue), rawValue with
      | some m, .str s =>
        some (decomposeTail E (.str (String.mk (s.data.drop 2)))
          (some (String.mk (m.data.take 1))))
      | some _, _ => none
      | none, _ => some (decomposeTail E rawValue none)

/-! ## The recomposers -/

/-- The function `getNumberProgress`. -/
def getNumberProgress (E : Ext) (fromNumber toNumber progressValue roundValue : JSVal) :
    JSVal :=
  let value := jsAdd fromNumber (jsMul progressValue (jsSub toNumber fromNumber))
  if truthy roundValue then E.round value roundValue else value

/-- The function `recomposeNumberValue`. -/
def recomposeNumberValue (E : Ext) (tween : Tween) : Option JSVal :=
  some (getNumberProgress E (optNum tween.from_.number) (optNum tween.to_.number)
    (.num tween.progress) tween.round)

/-- The function `recomposeUnitValue`. -/
def recomposeUnitValue (E : Ext) (tween : Tween) : Option JSVal :=
  some (jsAdd (getNumberProgress E (optNum tween.from_.number) (optNum tween.to_.number)
    (.num tween.progress) tween.round) (optStr tween.to_.unit))

/-- The function `recomposeColorValue`; indexing an absent `numbers` throws. -/
def recomposeColorValue (E : Ext) (tween : Tween) : Option JSVal :=
  match tween.from_.numbers, tween.to_.numbers with
  | some fn, some tn =>
    let p := JSVal.num tween.progress
    let value := JSVal.str rgbaString
    let value := jsAdd value
      (jsAdd (getNumberProgress E (idxNum fn 0) (idxNum tn 0) p (.num (.fin 1)))
        (.str commaString))
    let value := jsAdd value
      (jsAdd (getNumberProgress E (idxNum fn 1) (idxNum tn 1) p (.num (.fin 1)))
        (.str commaString))
    let value := jsAdd value
      (jsAdd (getNumberProgress E (idxNum fn 2) (idxNum tn 2) p (.num (.fin 1)))
        (.str commaString))
    let value := jsAdd value
      (jsAdd (getNumberProgress E (idxNum fn 3) (idxNum tn 3) p .undefined)
        (.str closeParenthesisString))
    some value
  | _, _ => none

/-- The function `recomposePathValue`. -/
def recomposePathValue (E : Ext) (tween : Tween) : Option JSVal :=
  let value := jsAdd
    (E.getPathProgress (optPath tween.to_.path)
      (jsMul (.num tween.progress) (optNum tween.to_.number)))
    (optStr tween.to_.unit)
  if truthy tween.round then some (E.round value tween.round) else some value

/-- One turn of the loop of `recomposeComplexValue`, at index `i`; `progress`
and `round` are those of the tween. -/
def complexStep (E : Ext) (progress : JSNum) (round : JSVal)
    (fromNumbers toNumbers : List JSNum) (strings : List String) (i : Nat) (value : JSVal) :
    JSVal :=
  let number := getNumberProgress E (idxNum fromNumbers i) (idxNum toNumbers i)
    (.num progress) round
  let nextString := idxStr strings (i + 1)
  if !truthy nextString then jsAdd value number
  else jsAdd value (jsAdd number nextString)

/-- The loop of `recomposeComplexValue`: `n` turns starting at index `i`. -/
def complexLoop (E : Ext) (progress : JSNum) (round : JSVal)
    (fromNumbers toNumbers : List JSNum) (strings : List String) : Nat → Nat → JSVal → JSVal
  | _, 0, value => value
  | i, n + 1, value =>
    complexLoop E progress round fromNumbers toNumbers strings (i + 1) n
      (complexStep E progress round fromNumbers toNumbers strings i value)

/-- The function `recomposeComplexValue`.  Indexing an absent `to.strings`,
reading the length of an absent `to.numbers`, or indexing an absent
`from.numbers` in the loop throws. -/
def recomposeComplexValue (E : Ext) (tween : Tween) : Option JSVal :=
  match tween.to_.strings, tween.to_.numbers with
  | some strings, some toNumbers =>
    let value := idxStr strings 0
    match toNumbers.length, tween.from_.numbers with
    | 0, _ => some value
    | _ + 1, none => none
    | l + 1, some fromNumbers =>
      some (complexLoop E tween.progress tween.round fromNumbers toNumbers strings 0 (l + 1)
        value)
  | _, _ => none

/-- The table `recomposeValueFunctions`, indexed by the tag. -/
def recomposeValueFunctions (E : Ext) : List (Tween → Option JSVal) :=
  [recomposeNumberValue E, recomposeUnitValue E, recomposeColorValue E,
   recomposePathValue E, recomposeComplexValue E]

/-- The recomposer the table holds for a tag, applied to a tween. -/
def recompose (E : Ext) (t : ValueType) (tween : Tween) : Option JSVal :=
  match (recomposeValueFunctions E)[t.tag]? with
  | some f => f tween
  | none => none

/-! ## A sample of the imported functions -/

/-- Modelled from the spec: `round` of `utils.js`.  The spec fixes its result
where the code passes the argument 1: the nearest integer (colour channels).
The model rounds `v * r` to the nearest integer and divides by `r`. -/
def sampleRound (v r : JSVal) : JSVal :=
  .num ((((toNumber v).mul (toNumber r)).mathRound).div (toNumber r))

/-- Modelled from the spec: `is.col` of `utils.js`, reduced to the colour
expressions that start with `rgb`. -/
def sampleIsCol : JSVal → Bool
  | .str s =>
    match s.data with
    | 'r' :: 'g' :: 'b' :: _ => true
    | _ => false
  | _ => false

/-- Modelled from the spec: `convertColorStringValuesToRgbaArray` of
`colors.js`, reduced to the expressions `rgb(r,g,b)` and `rgba(r,g,b,a)`: the
channels in order, the alpha channel being 1 when it is not written. -/
def sampleConvertColor (v : JSVal) : List JSNum :=
  ((((strMatch digitWithExponentRgx (toStr v)).getD []).map stringToNumber)
    ++ [JSNum.fin 1]).take 4

/-- Modelled from the spec: `getPathProgress` of `svg.js`, the position at an
arc length on a path.  The sample paths are horizontal segments that start at
the abscissa `ref`, and the position is the abscissa reached. -/
def samplePathProgress (path len : JSVal) : JSVal :=
  match path with
  | .path p => jsAdd (.num (.fin p.ref)) len
  | _ => len

/-- A sample of the imported functions, on which the embedding is evaluated at
concrete inputs. -/
def sampleExt : Ext where
  round := sampleRound
  getPathProgress := samplePathProgress
  isCol := sampleIsCol
  convertColorStringValuesToRgbaArray := sampleConvertColor

/-! ## Specification-level definitions -/

/-- The linear interpolation `from + progress * (to - from)` on numbers. -/
def interpolate (a b p : JSNum) : JSNum := a.add (p.mul (b.sub a))

/-- The linear interpolation of the entry `i` of two arrays of numbers, as
`getNumberProgress` computes it before any rounding. -/
def channel (fn tn : List JSNum) (p : JSNum) (i : Nat) : JSVal :=
  jsAdd (idxNum fn i) (jsMul (.num p) (jsSub (idxNum tn i) (idxNum fn i)))

/-- Concatenation of a list of strings. -/
def joinStrings : List String → String
  | [] => ""
  | s :: r => s ++ joinStrings r

/-- The piece a COMPLEX tween writes for index `i`, in the words of the spec:
the interpolation of `from.numbers[i]` toward `to.numbers[i]`, then the segment
`to.strings[i+1]` when it is present. -/
def complexPiece (E : Ext) (progress : JSNum) (round : JSVal)
    (fromNumbers toNumbers : List JSNum) (strings : List String) (i : Nat) : String :=
  toStr (getNumberProgress E (idxNum fromNumbers i) (idxNum toNumbers i)
    (.num progress) round) ++ (strings[i + 1]?).getD ""

/-- A finite number is present. -/
def finiteNum : Option JSNum → Bool
  | some (.fin _) => true
  | _ => false

/-- A list of finite numbers is present. -/
def finiteNums : Option (List JSNum) → Bool
  | some l => l.all JSNum.isFinite
  | none => false

/-- The number of entries of an optional list. -/
def lengthOf : Option (List JSNum) → Nat
  | some l => l.length
  | none => 0

/-- The data model of the spec for a value with tag `t`, its numbers finite:
NUMBER has a number; UNIT a number and a unit; COLOR four channels; PATH a
path, a number and a unit; COMPLEX numbers and strings. -/
def wellFormed (t : ValueType) (v : Value) : Bool :=
  decide (v.type = t) &&
  match t with
  | .NUMBER => finiteNum v.number
  | .UNIT => finiteNum v.number && v.unit.isSome
  | .COLOR => finiteNums v.numbers && lengthOf v.numbers == 4
  | .PATH => v.path.isSome && finiteNum v.number && v.unit.isSome
  | .COMPLEX => finiteNums v.numbers && v.strings.isSome

/-- What the endpoints of a tween with tag `t` must share for the output at
progress 0 to be the formatted `from` endpoint: the unit for UNIT; the path and
the unit for PATH; the strings for COMPLEX. -/
def startAgree (t : ValueType) (f g : Value) : Bool :=
  match t with
  | .NUMBER => true
  | .UNIT => decide (g.unit = f.unit)
  | .COLOR => true
  | .PATH => decide (g.path = f.path) && decide (g.unit = f.unit)
  | .COMPLEX => decide (g.strings = f.strings)

/-- The pieces of a split woven with the matches between them: piece, match,
piece, match, and so on. -/
def weave : List (List Char) → List (List Char) → List Char
  | p :: ps, t :: ts => p ++ t ++ weave ps ts
  | p :: _, [] => p
  | [], _ => []

/-- The numeric tokens of a string, as `digitWithExponentRgx` finds them. -/
def numericTokens (s : String) : List (List Char) := matchAllAux digitWithExponentRgx 0 s.data

/-- A token is canonical when it denotes a finite number whose decimal rendering
is the token itself. -/
def canonicalToken (t : List Char) : Bool :=
  match stringToNumber (String.mk t) with
  | .fin q => numToString (.fin q) == String.mk t
  | _ => false

/-- The COMPLEX value `decomposeValue` builds from the string `s`: the numbers
of its numeric tokens, or `[0]` when there is none, and the pieces between
them. -/
def complexValue (s : String) : Value :=
  { type := .COMPLEX,
    numbers := some (match strMatch digitWithExponentRgx s with
      | some ms => ms.map stringToNumber
      | none => [.fin 0]),
    strings := some (strSplit digitWithExponentRgx s) }

/-- The COMPLEX value of `auto`, a string with no numeric token. -/
def autoValue : Value :=
  { type := .COMPLEX, numbers := some [.fin 0], strings := some ["auto"] }

/-- The COMPLEX value of `translate(10px, 20px)`. -/
def translateValue : Value :=
  { type := .COMPLEX, numbers := some [.fin 10, .fin 20],
    strings := some ["translate(", "px, ", "px)"] }

/-! ## Sample tweens -/

/-- The NUMBER value of a finite number. -/
def numberValue (q : ℚ) : Value := { type := .NUMBER, number := some (.fin q) }

/-- The UNIT value of a finite number and a unit. -/
def unitValue (q : ℚ) (u : String) : Value :=
  { type := .UNIT, number := some (.fin q), unit := some u }

/-- The COLOR value of four finite channels. -/
def colorValue (r g b a : ℚ) : Value :=
  { type := .COLOR, numbers := some [.fin r, .fin g, .fin b, .fin a] }

/-- The tween from 0 to 100 at progress 1/4, no rounding. -/
def sampleNumberTween : Tween :=
  { from_ := numberValue 0, to_ := numberValue 100, progress := .fin (1 / 4),
    round := .undefined }

/-- The tween from `0px` to `100px` at progress 1/4, no rounding. -/
def sampleUnitTween : Tween :=
  { from_ := unitValue 0 "px", to_ := unitValue 100 "px", progress := .fin (1 / 4),
    round := .undefined }

/-- The tween from `0px` to `100em` at progress 0, no rounding. -/
def mixedUnitTween : Tween :=
  { from_ := unitValue 0 "px", to_ := unitValue 100 "em", progress := .fin 0,
    round := .undefined }

/-- The PATH value of the sample path `ref` of length `len`. -/
def pathValue (ref : Nat) (len : ℚ) : Value :=
  { type := .PATH, path := some { ref := ref, totalLength := .fin len },
    number := some (.fin len), unit := some emptyString }

/-- The tween from the path 1 to the path 7, both of length 10, at progress 0. -/
def mixedPathTween : Tween :=
  { from_ := pathValue 1 10, to_ := pathValue 7 10, progress := .fin 0, round := .undefined }

/-- The COMPLEX tween from `a1b` to `c2d` at progress 0. -/
def mixedComplexTween : Tween :=
  { from_ := { type := .COMPLEX, numbers := some [.fin 1], strings := some ["a", "b"] },
    to_ := { type := .COMPLEX, numbers := some [.fin 2], strings := some ["c", "d"] },
    progress := .fin 0, round := .undefined }

/-- The COMPLEX tween from `translate(0px, 0px)` to `translate(10px, 20px)` at
progress 1/2, no rounding. -/
def sampleComplexTween : Tween :=
  { from_ := { type := .COMPLEX, numbers := some [.fin 0, .fin 0],
               strings := some ["translate(", "px, ", "px)"] },
    to_ := translateValue, progress := .fin (1 / 2), round := .undefined }

/-- The tween of `sampleComplexTween` at progress 0. -/
def startComplexTween : Tween := { sampleComplexTween with progress := .fin 0 }

/-- The tween of `sampleComplexTween` at progress 1. -/
def endComplexTween : Tween := { sampleComplexTween with progress := .fin 1 }

/-- The colour tween from `(0,0,0,0)` to `(255,255,255,1)` at progress 1/2, with
the rounding argument `r`. -/
def sampleColorTween (r : JSVal) : Tween :=
  { from_ := colorValue 0 0 0 0, to_ := colorValue 255 255 255 1, progress := .fin (1 / 2),
    round := r }

/-- The PATH tween from the path 1 to the path 7, both of length 10, at
progress 1/2, no rounding. -/
def samplePathTween : Tween :=
  { from_ := pathValue 1 10, to_ := pathValue 7 10, progress := .fin (1 / 2),
    round := .undefined }

/-- An animatable: the first target of a batch of one. -/
def sampleAnimatable : Animatable :=
  { target := .obj 0, id := .num (.fin 0), total := .num (.fin 1) }

/-- The number of entries of an optional list of strings. -/
def lengthOfStrings : Option (List String) → Nat
  | some l => l.length
  | none => 0

/-- A string begins and ends with non-numeric text when the first and the last
piece of its split are not empty. -/
def edgesNonNumeric (s : String) : Bool :=
  let pieces := splitAux digitWithExponentRgx 0 [] s.data
  pieces.head? != some [] && pieces.getLast? != some []

/-- A string is a relative-operator prefix followed by a numeric delta: after
the prefix stands a number, or a number followed by a unit. -/
def isRelativeDelta (s : String) : Bool :=
  match relativeValuesExecRgx s with
  | some _ =>
    let rest := String.mk (s.data.drop 2)
    !(stringToNumber rest).isNaN || (unitsExecRgx rest).isSome
  | none => false

/-- The COMPLEX tween from one number to `translate(10px, 20px)` at progress
1/2: `from` has fewer numbers than `to`. -/
def shortFromTween : Tween :=
  { from_ := { type := .COMPLEX, numbers := some [.fin 0], strings := some ["x"] },
    to_ := translateValue, progress := .fin (1 / 2), round := .undefined }

/-- The magnitude from which an exact result overflows to an infinity in
binary64: `2^1024 - 2^970`, half a unit in the last place above the largest
finite number. -/
def overflowBound : ℚ := ((2 ^ 1024 - 2 ^ 970 : Nat) : ℚ)

/-- The difference `b - a` is finite in binary64: both numbers are finite and
the exact difference is below the overflow bound. -/
def differenceInRange : JSNum → JSNum → Bool
  | .fin a, .fin b => decide (|b - a| < overflowBound)
  | _, _ => false

/-- The differences `to - from` that the recomposer of the tag `t` computes
between the endpoints `f` and `g` are finite in binary64.  The PATH recomposer
computes none. -/
def differencesInRange (t : ValueType) (f g : Value) : Bool :=
  match t with
  | .NUMBER | .UNIT =>
    match f.number, g.number with
    | some a, some b => differenceInRange a b
    | _, _ => false
  | .COLOR | .COMPLEX =>
    match f.numbers, g.numbers with
    | some fn, some tn => (List.zip fn tn).all (fun ab => differenceInRange ab.1 ab.2)
    | _, _ => false
  | .PATH => true

/-- The NUMBER tween from 5 to `Infinity` at progress 0, no rounding. -/
def infiniteNumberTween : Tween :=
  { from_ := numberValue 5, to_ := { type := .NUMBER, number := some .pinf },
    progress := .fin 0, round := .undefined }

/-! ## Basic facts about the operators -/

theorem jsAdd_str_left (a : String) (v : JSVal) : jsAdd (.str a) v = .str (a ++ toStr v) := by
  simp [jsAdd, isStringLike, toStr]

theorem jsAdd_str_right (v : JSVal) (b : String) : jsAdd v (.str b) = .str (toStr v ++ b) := by
  cases v <;> simp [jsAdd, isStringLike, toStr]

theorem jsAdd_num (a b : JSNum) : jsAdd (.num a) (.num b) = .num (a.add b) := by
  simp [jsAdd, isStringLike, toNumber]

theorem jsSub_num (a b : JSNum) : jsSub (.num a) (.num b) = .num (a.sub b) := rfl

theorem jsMul_num (a b : JSNum) : jsMul (.num a) (.num b) = .num (a.mul b) := rfl

/-- The interpolation expression of `getNumberProgress` on numbers. -/
theorem lerp_num (a b p : JSNum) :
    jsAdd (.num a) (jsMul (.num p) (jsSub (.num b) (.num a))) = .num (interpolate a b p) := by
  simp [jsSub_num, jsMul_num, jsAdd_num, interpolate]

theorem interpolate_fin (x y p : ℚ) :
    interpolate (.fin x) (.fin y) (.fin p) = .fin (x + p * (y - x)) := by
  simp [interpolate, JSNum.add, JSNum.mul, JSNum.sub, JSNum.neg, sub_eq_add_neg]

theorem interpolate_zero (x y : ℚ) : interpolate (.fin x) (.fin y) (.fin 0) = .fin x := by
  simp [interpolate_fin]

theorem interpolate_one (x y : ℚ) : interpolate (.fin x) (.fin y) (.fin 1) = .fin y := by
  simp [interpolate_fin]

theorem interpolate_same (x p : ℚ) : interpolate (.fin x) (.fin x) (.fin p) = .fin x := by
  simp [interpolate_fin]

theorem getNumberProgress_num (E : Ext) (a b p : JSNum) (r : JSVal) :
    getNumberProgress E (.num a) (.num b) (.num p) r =
      if truthy r then E.round (.num (interpolate a b p)) r else .num (interpolate a b p) := by
  simp [getNumberProgress, lerp_num]

/-! ## Recomposition of NUMBER and UNIT values -/

/-- C1: for every tween with numbers `a` and `b`, `recomposeNumberValue` returns the bare
number `a + progress * (b - a)` when `tween.round` is falsy and `round` of that number and
`tween.round` when it is set; an absent `round` and the number 0 are falsy; on finite
numbers the value is the rational `x + p * (y - x)`. -/
theorem recomposeNumberValue_interpolates (E : Ext) (tween : Tween) (a b : JSNum)
    (hf : tween.from_.number = some a) (ht : tween.to_.number = some b) :
    recomposeNumberValue E tween =
        some (if truthy tween.round then E.round (.num (interpolate a b tween.progress)) tween.round
              else .num (interpolate a b tween.progress))
      ∧ truthy .undefined = false ∧ truthy (.num (.fin 0)) = false
      ∧ ∀ x y p : ℚ, a = .fin x → b = .fin y → tween.progress = .fin p →
          interpolate a b tween.progress = .fin (x + p * (y - x)) := by
  refine ⟨?_, rfl, by simp [truthy], ?_⟩
  · simp [recomposeNumberValue, hf, ht, optNum, getNumberProgress_num]
  · intro x y p hx hy hp
    rw [hx, hy, hp, interpolate_fin]

theorem recomposeNumberValue_interpolates_witness :
    sampleNumberTween.from_.number = some (.fin 0) ∧
    sampleNumberTween.to_.number = some (.fin 100) ∧
    (recomposeNumberValue sampleExt sampleNumberTween =
        some (if truthy sampleNumberTween.round then
                sampleExt.round (.num (interpolate (.fin 0) (.fin 100) sampleNumberTween.progress))
                  sampleNumberTween.round
              else .num (interpolate (.fin 0) (.fin 100) sampleNumberTween.progress))
      ∧ truthy .undefined = false ∧ truthy (.num (.fin 0)) = false
      ∧ ∀ x y p : ℚ, JSNum.fin 0 = .fin x → JSNum.fin 100 = .fin y →
          sampleNumberTween.progress = .fin p →
          interpolate (.fin 0) (.fin 100) sampleNumberTween.progress = .fin (x + p * (y - x))) :=
  ⟨rfl, rfl, recomposeNumberValue_interpolates sampleExt sampleNumberTween (.fin 0) (.fin 100) rfl rfl⟩

/-- C2: for every tween with numbers `a`, `b` and unit `u` on `to`, `recomposeUnitValue`
returns the string of the interpolated number (rounded by `tween.round` when it is set)
immediately followed by `u`; from `0px` to `100px` at progress 0.25 with no rounding the
result is `25px`. -/
theorem recomposeUnitValue_appends_unit (E : Ext) (tween : Tween) (a b : JSNum) (u : String)
    (hf : tween.from_.number = some a) (ht : tween.to_.number = some b)
    (hu : tween.to_.unit = some u) :
    recomposeUnitValue E tween =
        some (.str (toStr (if truthy tween.round then
                              E.round (.num (interpolate a b tween.progress)) tween.round
                            else .num (interpolate a b tween.progress)) ++ u))
      ∧ recomposeUnitValue E sampleUnitTween = some (.str "25px") := by
  constructor
  · simp [recomposeUnitValue, hf, ht, hu, optNum, optStr, getNumberProgress_num, jsAdd_str_right]
  · simp only [recomposeUnitValue, sampleUnitTween, unitValue, optNum, optStr,
      getNumberProgress_num, jsAdd_str_right, truthy, interpolate_fin, Bool.false_eq_true,
      if_false]
    decide!

theorem recomposeUnitValue_appends_unit_witness :
    sampleUnitTween.from_.number = some (.fin 0) ∧
    sampleUnitTween.to_.number = some (.fin 100) ∧
    sampleUnitTween.to_.unit = some "px" ∧
    (recomposeUnitValue sampleExt sampleUnitTween =
        some (.str (toStr (if truthy sampleUnitTween.round then
                              sampleExt.round
                                (.num (interpolate (.fin 0) (.fin 100) sampleUnitTween.progress))
                                sampleUnitTween.round
                            else .num (interpolate (.fin 0) (.fin 100) sampleUnitTween.progress))
                      ++ "px"))
      ∧ recomposeUnitValue sampleExt sampleUnitTween = some (.str "25px")) :=
  ⟨rfl, rfl, rfl,
    recomposeUnitValue_appends_unit sampleExt sampleUnitTween (.fin 0) (.fin 100) "px" rfl rfl rfl⟩

/-! ## Recomposition of COMPLEX values -/

theorem complexStep_str (E : Ext) (p : JSNum) (r : JSVal) (fn tn : List JSNum)
    (strings : List String) (i : Nat) (v : String) :
    complexStep E p r fn tn strings i (.str v) =
      .str (v ++ complexPiece E p r fn tn strings i) := by
  unfold complexStep complexPiece idxStr
  cases h : strings[i + 1]? with
  | none => simp [optStr, truthy, jsAdd_str_left]
  | some s =>
    by_cases hs : s = ""
    · simp [optStr, truthy, jsAdd_str_left, hs]
    · simp [optStr, truthy, jsAdd_str_left, jsAdd_str_right, hs, toStr]

theorem complexLoop_str (E : Ext) (p : JSNum) (r : JSVal) (fn tn : List JSNum)
    (strings : List String) (n : Nat) :
    ∀ (i : Nat) (v : String),
      complexLoop E p r fn tn strings i n (.str v) =
        .str (v ++ joinStrings ((List.range' i n).map (complexPiece E p r fn tn strings))) := by
  induction n with
  | zero => intro i v; simp [complexLoop, joinStrings]
  | succ n ih =>
    intro i v
    simp [complexLoop, complexStep_str, ih, List.range'_succ, joinStrings, String.append_assoc]

/-- C3: for every COMPLEX tween whose `to.strings` starts with `s0`, `recomposeComplexValue`
returns `s0` followed, for each index `i` below `to.numbers.length` in increasing order, by
the interpolation of `from.numbers[i]` toward `to.numbers[i]` at `tween.round` and then
`to.strings[i+1]` when it is present; two tweens that differ only in `from.strings` give the
same output. -/
theorem recomposeComplexValue_walks (E : Ext) (tween : Tween) (s0 : String)
    (rest : List String) (fn tn : List JSNum)
    (hs : tween.to_.strings = some (s0 :: rest)) (hn : tween.to_.numbers = some tn)
    (hf : tween.from_.numbers = some fn) :
    recomposeComplexValue E tween =
        some (.str (s0 ++ joinStrings ((List.range tn.length).map
          (complexPiece E tween.progress tween.round fn tn (s0 :: rest)))))
      ∧ ∀ ss : Option (List String),
          recomposeComplexValue E { tween with from_ := { tween.from_ with strings := ss } } =
            recomposeComplexValue E tween := by
  constructor
  · unfold recomposeComplexValue
    rw [hs, hn, hf]
    cases hl : tn.length with
    | zero => simp [hl, idxStr, optStr, joinStrings]
    | succ l =>
      simp only [hl, idxStr, List.getElem?_cons_zero, optStr]
      rw [complexLoop_str, List.range_eq_range']
  · intro ss
    rfl

theorem recomposeComplexValue_walks_witness :
    sampleComplexTween.to_.strings = some ("translate(" :: ["px, ", "px)"]) ∧
    sampleComplexTween.to_.numbers = some [.fin 10, .fin 20] ∧
    sampleComplexTween.from_.numbers = some [.fin 0, .fin 0] ∧
    (recomposeComplexValue sampleExt sampleComplexTween =
        some (.str ("translate(" ++ joinStrings ((List.range [JSNum.fin 10, .fin 20].length).map
          (complexPiece sampleExt sampleComplexTween.progress sampleComplexTween.round
            [.fin 0, .fin 0] [.fin 10, .fin 20] ("translate(" :: ["px, ", "px)"])))))
      ∧ ∀ ss : Option (List String),
          recomposeComplexValue sampleExt
            { sampleComplexTween with from_ := { sampleComplexTween.from_ with strings := ss } } =
            recomposeComplexValue sampleExt sampleComplexTween) ∧
    recomposeComplexValue sampleExt sampleComplexTween = some (.str "translate(5px, 10px)") :=
  ⟨rfl, rfl, rfl,
    recomposeComplexValue_walks sampleExt sampleComplexTween "translate(" ["px, ", "px)"]
      [.fin 0, .fin 0] [.fin 10, .fin 20] rfl rfl rfl,
    by decide!⟩

/-! ## Matching and splitting -/

theorem weave_split (m : List Char → Option Nat) (cs : List Char) :
    ∀ (k : Nat) (cur : List Char),
      weave (splitAux m k cur cs) (matchAllAux m k cs) = cur.reverse ++ cs.drop k := by
  induction cs with
  | nil => intro k cur; cases k <;> simp [splitAux, matchAllAux, weave]
  | cons c cs ih =>
    intro k cur
    cases k with
    | zero =>
      cases hm : m (c :: cs) with
      | none => simp [splitAux, matchAllAux, hm, ih]
      | some n =>
        cases n with
        | zero => simp [splitAux, matchAllAux, hm, ih]
        | succ n => simp [splitAux, matchAllAux, hm, ih, weave]
    | succ k => simp [splitAux, matchAllAux, ih]

theorem length_split (m : List Char → Option Nat) (cs : List Char) :
    ∀ (k : Nat) (cur : List Char),
      (splitAux m k cur cs).length = (matchAllAux m k cs).length + 1 := by
  induction cs with
  | nil => intro k cur; cases k <;> simp [splitAux, matchAllAux]
  | cons c cs ih =>
    intro k cur
    cases k with
    | zero =>
      cases hm : m (c :: cs) with
      | none => simp [splitAux, matchAllAux, hm, ih]
      | some n =>
        cases n with
        | zero => simp [splitAux, matchAllAux, hm, ih]
        | succ n => simp [splitAux, matchAllAux, hm, ih]
    | succ k => simp [splitAux, matchAllAux, ih]

theorem getElem?_of_drop_eq_cons {α : Type} (l : List α) (i : Nat) (t : α) (ts : List α)
    (h : l.drop i = t :: ts) : l[i]? = some t ∧ l.drop (i + 1) = ts := by
  constructor
  · have h0 : (l.drop i)[0]? = some t := by rw [h]; simp
    simpa [List.getElem?_drop] using h0
  · rw [← List.tail_drop, h]; rfl

theorem mk_append (a b : List Char) : String.mk a ++ String.mk b = String.mk (a ++ b) := rfl

/-! ## Round trip of COMPLEX values -/

theorem canonicalToken_fin (t : List Char) (h : canonicalToken t = true) :
    ∃ q : ℚ, stringToNumber (String.mk t) = .fin q ∧ numToString (.fin q) = String.mk t := by
  unfold canonicalToken at h
  split at h
  · rename_i q hq
    exact ⟨q, hq, by simpa using h⟩
  · simp at h

theorem complexLoop_same (E : Ext) (p : ℚ) (r : JSVal) (hr : truthy r = false)
    (toks pieces : List (List Char)) (hcanon : ∀ t ∈ toks, canonicalToken t = true)
    (sufT : List (List Char)) :
    ∀ (sufP : List (List Char)) (i : Nat) (acc q0 : List Char),
      toks.drop i = sufT → pieces.drop (i + 1) = sufP → sufP.length = sufT.length →
      complexLoop E (.fin p) r (toks.map (fun t => stringToNumber (String.mk t)))
          (toks.map (fun t => stringToNumber (String.mk t))) (pieces.map String.mk)
          i sufT.length (.str (String.mk (acc ++ q0))) =
        .str (String.mk (acc ++ weave (q0 :: sufP) sufT)) := by
  induction sufT with
  | nil =>
    intro sufP i acc q0 _ _ hlen
    simp [complexLoop, weave]
  | cons t ts ih =>
    intro sufP i acc q0 hT hP hlen
    cases sufP with
    | nil => simp at hlen
    | cons q qs =>
      obtain ⟨hti, hts⟩ := getElem?_of_drop_eq_cons toks i t ts hT
      obtain ⟨hqi, hqs⟩ := getElem?_of_drop_eq_cons pieces (i + 1) q qs hP
      have hmem : t ∈ toks := List.getElem?_mem hti
      obtain ⟨x, hx1, hx2⟩ := canonicalToken_fin t (hcanon t hmem)
      have hpiece : complexPiece E (.fin p) r (toks.map (fun t => stringToNumber (String.mk t)))
          (toks.map (fun t => stringToNumber (String.mk t))) (pieces.map String.mk) i =
          String.mk (t ++ q) := by
        simp [complexPiece, idxNum, List.getElem?_map, hti, hqi, optNum, hx1,
          getNumberProgress_num, hr, interpolate_same, toStr, hx2, mk_append]
      have hlen2 : qs.length = ts.length := by simpa using hlen
      have := ih qs (i + 1) (acc ++ q0 ++ t) q hts hqs hlen2
      simp only [List.length_cons, complexLoop, complexStep_str, hpiece, mk_append]
      rw [← List.append_assoc, this]
      simp [weave, List.append_assoc]

theorem decomposeTail_complex (E : Ext) (val : JSVal) (op : Option String)
    (h : (decomposeTail E val op).type = .COMPLEX) :
    decomposeTail E val op =
        { complexValue (toStr (jsAdd val (.str emptyString))) with operator := op }
      ∧ truthy (optStr op) = false := by
  unfold decomposeTail at h ⊢
  split at h
  · simp at h
  · split at h
    · simp at h
    · split at h
      · simp at h
      · rename_i hu ho hc
        simp [hu, ho, hc, complexValue]

theorem relativeValuesExecRgx_take (s m : String) (h : relativeValuesExecRgx s = some m) :
    truthy (optStr (some (String.mk (m.data.take 1)))) = true := by
  unfold relativeValuesExecRgx at h
  split at h
  · split at h
    · cases h
      simp [optStr, truthy, String.ext_iff]
    · cases h
  · cases h

/-- The shape of every COMPLEX result of `decomposeValue` on a string. -/
theorem decomposeValue_complex_shape (E : Ext) (s : String) (v : Value)
    (hd : decomposeValue E (.str s) = some v) (hty : v.type = .COMPLEX) :
    v = complexValue s := by
  dsimp only [decomposeValue] at hd
  split at hd
  · cases hd; simp at hty
  · simp only [toStr] at hd
    cases hrel : relativeValuesExecRgx s with
    | some m =>
      simp only [hrel] at hd
      cases hd
      have h1 := decomposeTail_complex E _ _ hty
      rw [relativeValuesExecRgx_take s m hrel] at h1
      exact absurd h1.2 (by simp)
    | none =>
      simp only [hrel] at hd
      cases hd
      have h1 := (decomposeTail_complex E _ _ hty).1
      rw [h1]
      simp [jsAdd_str_left, toStr, emptyString, complexValue]

/-- A string that is no number, has no operator prefix, is no number with a unit and is no
colour decomposes to its COMPLEX value. -/
theorem decomposeValue_str_complex (E : Ext) (s : String)
    (hnum : (stringToNumber s).isNaN = true) (hrel : relativeValuesExecRgx s = none)
    (hunit : unitsExecRgx s = none) (hcol : E.isCol (.str s) = false) :
    decomposeValue E (.str s) = some (complexValue s) := by
  simp [decomposeValue, toNumber, hnum, toStr, hrel, decomposeTail, hunit, optStr, truthy, hcol,
    jsAdd_str_left, emptyString, complexValue]

theorem recompose_complexValue (E : Ext) (s : String) (p : ℚ) (r : JSVal)
    (hne : numericTokens s ≠ []) (hcanon : ∀ t ∈ numericTokens s, canonicalToken t = true)
    (hr : truthy r = false) :
    recomposeComplexValue E
      { from_ := complexValue s, to_ := complexValue s, progress := .fin p, round := r } =
      some (.str s) := by
  have hlen := length_split digitWithExponentRgx s.data 0 []
  have hweave := weave_split digitWithExponentRgx s.data 0 []
  unfold numericTokens at hne hcanon
  generalize htoks : matchAllAux digitWithExponentRgx 0 s.data = toks at *
  generalize hpieces : splitAux digitWithExponentRgx 0 [] s.data = pieces at *
  cases pieces with
  | nil => simp at hlen
  | cons p0 ps =>
    cases toks with
    | nil => exact absurd rfl hne
    | cons t ts =>
      have hps : ps.length = (t :: ts).length := by simpa using hlen
      have hloop := complexLoop_same E p r hr (t :: ts) (p0 :: ps) hcanon (t :: ts) ps 0 [] p0
        rfl rfl hps
      simp only [List.nil_append, hweave, List.reverse_nil, List.drop_zero] at hloop
      simp only [recomposeComplexValue, complexValue, strMatch, strSplit, htoks, hpieces,
        List.map_cons, List.map_map, List.length_cons, List.length_map, idxStr,
        List.getElem?_cons_zero, optStr]
      simp only [List.map_cons, List.length_cons, Function.comp_def] at hloop ⊢
      rw [hloop]

theorem translate_tokens_canonical :
    ∀ t ∈ numericTokens "translate(10px, 20px)", canonicalToken t = true := by
  have ht : numericTokens "translate(10px, 20px)" = [['1', '0'], ['2', '0']] := by decide!
  intro t hmem
  rw [ht] at hmem
  simp only [List.mem_cons, List.mem_singleton, List.not_mem_nil, or_false] at hmem
  rcases hmem with h | h
  · subst h; decide!
  · subst h; decide!

/-- C4 (amended): for every string `s` that `decomposeValue` tags COMPLEX, that holds at
least one numeric token and whose numeric tokens are each the decimal rendering of the finite
number they denote, recomposing the tween whose two endpoints are both `decomposeValue(s)`,
at any finite progress and with no rounding, gives back exactly `s`.  When
`translate(10px, 20px)` is no colour for `is.col`, it decomposes to numbers `[10, 20]` and
strings `translate(`, `px, `, `px)`, and recomposes to itself. -/
theorem complex_round_trip (E : Ext) (s : String) (v : Value) (p : ℚ) (r : JSVal)
    (hd : decomposeValue E (.str s) = some v) (hty : v.type = .COMPLEX)
    (hne : numericTokens s ≠ []) (hcanon : ∀ t ∈ numericTokens s, canonicalToken t = true)
    (hr : truthy r = false) :
    recomposeComplexValue E { from_ := v, to_ := v, progress := .fin p, round := r } =
        some (.str s)
      ∧ (E.isCol (.str "translate(10px, 20px)") = false →
          decomposeValue E (.str "translate(10px, 20px)") = some translateValue
          ∧ recomposeComplexValue E
              { from_ := translateValue, to_ := translateValue, progress := .fin p, round := r } =
              some (.str "translate(10px, 20px)")) := by
  constructor
  · rw [decomposeValue_complex_shape E s v hd hty]
    exact recompose_complexValue E s p r hne hcanon hr
  · intro hcol
    have hv : complexValue "translate(10px, 20px)" = translateValue := by decide!
    constructor
    · rw [decomposeValue_str_complex E _ (by decide!) (by decide!) (by decide!) hcol, hv]
    · rw [← hv]
      exact recompose_complexValue E _ p r (by decide!) translate_tokens_canonical hr

theorem complex_round_trip_witness :
    decomposeValue sampleExt (.str "translate(10px, 20px)") = some translateValue ∧
    translateValue.type = .COMPLEX ∧
    numericTokens "translate(10px, 20px)" ≠ [] ∧
    (∀ t ∈ numericTokens "translate(10px, 20px)", canonicalToken t = true) ∧
    truthy .undefined = false ∧
    (recomposeComplexValue sampleExt
        { from_ := translateValue, to_ := translateValue, progress := .fin (1 / 3),
          round := .undefined } = some (.str "translate(10px, 20px)")
      ∧ (sampleExt.isCol (.str "translate(10px, 20px)") = false →
          decomposeValue sampleExt (.str "translate(10px, 20px)") = some translateValue
          ∧ recomposeComplexValue sampleExt
              { from_ := translateValue, to_ := translateValue, progress := .fin (1 / 3),
                round := .undefined } = some (.str "translate(10px, 20px)"))) :=
  ⟨by decide!, rfl, by decide!, translate_tokens_canonical, rfl,
    complex_round_trip sampleExt "translate(10px, 20px)" translateValue (1 / 3) .undefined
      (by decide!) rfl (by decide!) translate_tokens_canonical rfl⟩

/-- C4 (counterexample): `auto` is tagged COMPLEX and holds no numeric token; its value has
numbers `[0]`, and recomposing it between itself gives `auto0`.  `scale(1.0)` is tagged
COMPLEX with the token `1.0`, which is not the rendering of the number 1, and recomposes to
`scale(1)`. -/
theorem complex_round_trip_fails :
    decomposeValue sampleExt (.str "auto") = some autoValue ∧
    autoValue.type = .COMPLEX ∧
    recomposeComplexValue sampleExt
      { from_ := autoValue, to_ := autoValue, progress := .fin (1 / 2), round := .undefined } =
      some (.str "auto0") ∧
    decomposeValue sampleExt (.str "scale(1.0)") = some (complexValue "scale(1.0)") ∧
    (complexValue "scale(1.0)").type = .COMPLEX ∧
    recomposeComplexValue sampleExt
      { from_ := complexValue "scale(1.0)", to_ := complexValue "scale(1.0)",
        progress := .fin (1 / 2), round := .undefined } = some (.str "scale(1)") := by
  refine ⟨by decide!, rfl, by decide!, by decide!, rfl, by decide!⟩

/-! ## The endpoints of a tween -/

theorem recompose_NUMBER (E : Ext) (tw : Tween) :
    recompose E .NUMBER tw = recomposeNumberValue E tw := rfl

theorem recompose_UNIT (E : Ext) (tw : Tween) :
    recompose E .UNIT tw = recomposeUnitValue E tw := rfl

theorem recompose_COLOR (E : Ext) (tw : Tween) :
    recompose E .COLOR tw = recomposeColorValue E tw := rfl

theorem recompose_PATH (E : Ext) (tw : Tween) :
    recompose E .PATH tw = recomposePathValue E tw := rfl

theorem recompose_COMPLEX (E : Ext) (tw : Tween) :
    recompose E .COMPLEX tw = recomposeComplexValue E tw := rfl

theorem finiteNum_eq (o : Option JSNum) (h : finiteNum o = true) : ∃ q, o = some (.fin q) := by
  cases o with
  | none => simp [finiteNum] at h
  | some n => cases n <;> simp_all [finiteNum]

theorem finiteNums_eq (o : Option (List JSNum)) (h : finiteNums o = true) :
    ∃ l, o = some l ∧ ∀ x ∈ l, ∃ q, x = JSNum.fin q := by
  cases o with
  | none => simp [finiteNums] at h
  | some l =>
    refine ⟨l, rfl, ?_⟩
    intro x hx
    have := (List.all_eq_true.mp h) x hx
    cases x <;> simp_all [JSNum.isFinite]

/-- The entry `i` of two lists of finite numbers of one length: both absent, or both finite. -/
theorem idxNum_pair (fn tn : List JSNum) (hf : ∀ x ∈ fn, ∃ q, x = JSNum.fin q)
    (ht : ∀ x ∈ tn, ∃ q, x = JSNum.fin q) (hlen : fn.length = tn.length) (i : Nat) :
    (idxNum fn i = .undefined ∧ idxNum tn i = .undefined) ∨
      ∃ a b, idxNum fn i = .num (.fin a) ∧ idxNum tn i = .num (.fin b) := by
  by_cases hi : i < fn.length
  · right
    have hi2 : i < tn.length := hlen ▸ hi
    obtain ⟨a, ha⟩ := hf fn[i] (List.getElem_mem hi)
    obtain ⟨b, hb⟩ := ht tn[i] (List.getElem_mem hi2)
    exact ⟨a, b, by simp [idxNum, List.getElem?_eq_getElem hi, optNum, ha],
      by simp [idxNum, List.getElem?_eq_getElem hi2, optNum, hb]⟩
  · left
    have hi2 : ¬ i < tn.length := hlen ▸ hi
    exact ⟨by simp [idxNum, List.getElem?_eq_none (Nat.le_of_not_lt hi), optNum],
      by simp [idxNum, List.getElem?_eq_none (Nat.le_of_not_lt hi2), optNum]⟩

theorem getNumberProgress_start (E : Ext) (fn tn : List JSNum)
    (hf : ∀ x ∈ fn, ∃ q, x = JSNum.fin q) (ht : ∀ x ∈ tn, ∃ q, x = JSNum.fin q)
    (hlen : fn.length = tn.length) (r : JSVal) (i : Nat) :
    getNumberProgress E (idxNum fn i) (idxNum tn i) (.num (.fin 0)) r =
      getNumberProgress E (idxNum fn i) (idxNum fn i) (.num (.fin 0)) r := by
  rcases idxNum_pair fn tn hf ht hlen i with ⟨h1, h2⟩ | ⟨a, b, h1, h2⟩
  · rw [h1, h2]
  · rw [h1, h2]
    simp [getNumberProgress_num, interpolate_zero]

theorem getNumberProgress_end (E : Ext) (fn tn : List JSNum)
    (hf : ∀ x ∈ fn, ∃ q, x = JSNum.fin q) (ht : ∀ x ∈ tn, ∃ q, x = JSNum.fin q)
    (hlen : fn.length = tn.length) (r : JSVal) (i : Nat) :
    getNumberProgress E (idxNum fn i) (idxNum tn i) (.num (.fin 1)) r =
      getNumberProgress E (idxNum tn i) (idxNum tn i) (.num (.fin 1)) r := by
  rcases idxNum_pair fn tn hf ht hlen i with ⟨h1, h2⟩ | ⟨a, b, h1, h2⟩
  · rw [h1, h2]
  · rw [h1, h2]
    simp [getNumberProgress_num, interpolate_one]

/-- The loop depends on the numbers only through the interpolated values. -/
theorem complexLoop_congr (E : Ext) (p : JSNum) (r : JSVal) (fn tn fn2 tn2 : List JSNum)
    (strings : List String)
    (h : ∀ j, getNumberProgress E (idxNum fn j) (idxNum tn j) (.num p) r =
      getNumberProgress E (idxNum fn2 j) (idxNum tn2 j) (.num p) r) (n : Nat) :
    ∀ (i : Nat) (v : JSVal),
      complexLoop E p r fn tn strings i n v = complexLoop E p r fn2 tn2 strings i n v := by
  induction n with
  | zero => intro i v; rfl
  | succ n ih =>
    intro i v
    simp only [complexLoop, complexStep, h, ih]

theorem recomposeColorValue_congr (E : Ext) (tw tw2 : Tween) (fn tn fn2 tn2 : List JSNum)
    (hf : tw.from_.numbers = some fn) (ht : tw.to_.numbers = some tn)
    (hf2 : tw2.from_.numbers = some fn2) (ht2 : tw2.to_.numbers = some tn2)
    (hp : tw2.progress = tw.progress)
    (h : ∀ (j : Nat) (r : JSVal),
      getNumberProgress E (idxNum fn j) (idxNum tn j) (.num tw.progress) r =
        getNumberProgress E (idxNum fn2 j) (idxNum tn2 j) (.num tw.progress) r) :
    recomposeColorValue E tw = recomposeColorValue E tw2 := by
  simp only [recomposeColorValue, hf, ht, hf2, ht2, hp, h]

theorem recomposeComplexValue_congr (E : Ext) (tw tw2 : Tween) (fn tn fn2 tn2 : List JSNum)
    (hf : tw.from_.numbers = some fn) (ht : tw.to_.numbers = some tn)
    (hf2 : tw2.from_.numbers = some fn2) (ht2 : tw2.to_.numbers = some tn2)
    (hs : tw2.to_.strings = tw.to_.strings) (hlen : tn2.length = tn.length)
    (hp : tw2.progress = tw.progress) (hr : tw2.round = tw.round)
    (h : ∀ j, getNumberProgress E (idxNum fn j) (idxNum tn j) (.num tw.progress) tw.round =
      getNumberProgress E (idxNum fn2 j) (idxNum tn2 j) (.num tw.progress) tw.round) :
    recomposeComplexValue E tw = recomposeComplexValue E tw2 := by
  simp only [recomposeComplexValue, hf, ht, hf2, ht2, hs, hp, hr]
  cases tw.to_.strings with
  | none => rfl
  | some strings =>
    simp only [hlen]
    cases hn : tn.length with
    | zero => rfl
    | succ l =>
      simp only
      rw [complexLoop_congr E tw.progress tw.round fn tn fn2 tn2 strings h]

/-- When the difference of two numbers is in range, both are finite. -/
theorem differencesInRange_number (t : ValueType) (f g : Value)
    (ht : t = .NUMBER ∨ t = .UNIT) (h : differencesInRange t f g = true) :
    ∃ a b : ℚ, f.number = some (.fin a) ∧ g.number = some (.fin b) ∧
      |b - a| < overflowBound := by
  have h2 : (match f.number, g.number with
      | some a, some b => differenceInRange a b
      | _, _ => false) = true := by
    rcases ht with ht | ht <;> subst ht <;> exact h
  cases hf : f.number with
  | none => simp [hf] at h2
  | some x =>
    cases hg : g.number with
    | none => simp [hf, hg] at h2
    | some y =>
      simp only [hf, hg] at h2
      cases x <;> cases y <;> simp [differenceInRange] at h2
      exact ⟨_, _, rfl, rfl, h2⟩

/-- C5 (amended): for every tween whose endpoints are well-formed values of one tag with
finite numbers (for COMPLEX, numbers of equal length) and whose differences `to - from` are
finite in binary64, the recomposer of that tag at progress 0 returns the same output as the
tween whose two endpoints are both `from`, provided the endpoints share what the recomposer
reads from `to`: nothing more for NUMBER and COLOR, the unit for UNIT, the path and the unit
for PATH, the strings for COMPLEX. -/
theorem recompose_start_endpoint (E : Ext) (t : ValueType) (tween : Tween)
    (hwf : wellFormed t tween.from_ = true) (hwt : wellFormed t tween.to_ = true)
    (hlen : t = .COMPLEX → lengthOf tween.from_.numbers = lengthOf tween.to_.numbers)
    (hrange : differencesInRange t tween.from_ tween.to_ = true)
    (hagree : startAgree t tween.from_ tween.to_ = true) (hp : tween.progress = .fin 0) :
    recompose E t tween = recompose E t { tween with to_ := tween.from_ } := by
  cases t with
  | NUMBER =>
    obtain ⟨a, b, ha, hb, _⟩ := differencesInRange_number _ _ _ (Or.inl rfl) hrange
    simp [recompose_NUMBER, recomposeNumberValue, ha, hb, hp, optNum, getNumberProgress_num,
      interpolate_zero]
  | UNIT =>
    simp only [startAgree, decide_eq_true_eq] at hagree
    obtain ⟨a, b, ha, hb, _⟩ := differencesInRange_number _ _ _ (Or.inr rfl) hrange
    simp [recompose_UNIT, recomposeUnitValue, ha, hb, hp, optNum, getNumberProgress_num,
      interpolate_zero, hagree]
  | COLOR =>
    simp only [wellFormed, Bool.and_eq_true, decide_eq_true_eq, beq_iff_eq] at hwf hwt
    obtain ⟨fn, hfn, hfin⟩ := finiteNums_eq _ hwf.2.1
    obtain ⟨tn, htn, htin⟩ := finiteNums_eq _ hwt.2.1
    have hl : fn.length = tn.length := by
      have h1 := hwf.2.2
      have h2 := hwt.2.2
      rw [hfn] at h1
      rw [htn] at h2
      simp only [lengthOf] at h1 h2
      omega
    rw [recompose_COLOR, recompose_COLOR]
    refine recomposeColorValue_congr E tween _ fn tn fn fn hfn htn hfn hfn rfl ?_
    intro j r
    rw [hp]
    exact getNumberProgress_start E fn tn hfin htin hl r j
  | PATH =>
    simp only [wellFormed, Bool.and_eq_true, decide_eq_true_eq] at hwf hwt
    simp only [startAgree, Bool.and_eq_true, decide_eq_true_eq] at hagree
    obtain ⟨a, ha⟩ := finiteNum_eq _ hwf.2.1.2
    obtain ⟨b, hb⟩ := finiteNum_eq _ hwt.2.1.2
    simp [recompose_PATH, recomposePathValue, ha, hb, hp, optNum, jsMul_num, JSNum.mul,
      hagree.1, hagree.2]
  | COMPLEX =>
    simp only [wellFormed, Bool.and_eq_true, decide_eq_true_eq] at hwf hwt
    simp only [startAgree, decide_eq_true_eq] at hagree
    obtain ⟨fn, hfn, hfin⟩ := finiteNums_eq _ hwf.2.1
    obtain ⟨tn, htn, htin⟩ := finiteNums_eq _ hwt.2.1
    have hl : fn.length = tn.length := by
      have h1 := hlen rfl
      rw [hfn, htn] at h1
      exact h1
    rw [recompose_COMPLEX, recompose_COMPLEX]
    refine recomposeComplexValue_congr E tween _ fn tn fn fn hfn htn hfn hfn hagree.symm hl
      rfl rfl ?_
    intro j
    rw [hp]
    exact getNumberProgress_start E fn tn hfin htin hl tween.round j

/-- C6: for every tween whose endpoints are well-formed values of one tag with finite
numbers (for COMPLEX, numbers of equal length), the recomposer of that tag at progress 1
returns the same output as the tween whose two endpoints are both `to`, for each of the
five tags; a rounding that is set rounds the same value in both. -/
theorem recompose_end_endpoint (E : Ext) (t : ValueType) (tween : Tween)
    (hwf : wellFormed t tween.from_ = true) (hwt : wellFormed t tween.to_ = true)
    (hlen : t = .COMPLEX → lengthOf tween.from_.numbers = lengthOf tween.to_.numbers)
    (hp : tween.progress = .fin 1) :
    recompose E t tween = recompose E t { tween with from_ := tween.to_ } := by
  cases t with
  | NUMBER =>
    simp only [wellFormed, Bool.and_eq_true, decide_eq_true_eq] at hwf hwt
    obtain ⟨a, ha⟩ := finiteNum_eq _ hwf.2
    obtain ⟨b, hb⟩ := finiteNum_eq _ hwt.2
    simp [recompose_NUMBER, recomposeNumberValue, ha, hb, hp, optNum, getNumberProgress_num,
      interpolate_one]
  | UNIT =>
    simp only [wellFormed, Bool.and_eq_true, decide_eq_true_eq] at hwf hwt
    obtain ⟨a, ha⟩ := finiteNum_eq _ hwf.2.1
    obtain ⟨b, hb⟩ := finiteNum_eq _ hwt.2.1
    simp [recompose_UNIT, recomposeUnitValue, ha, hb, hp, optNum, getNumberProgress_num,
      interpolate_one]
  | COLOR =>
    simp only [wellFormed, Bool.and_eq_true, decide_eq_true_eq, beq_iff_eq] at hwf hwt
    obtain ⟨fn, hfn, hfin⟩ := finiteNums_eq _ hwf.2.1
    obtain ⟨tn, htn, htin⟩ := finiteNums_eq _ hwt.2.1
    have hl : fn.length = tn.length := by
      have h1 := hwf.2.2
      have h2 := hwt.2.2
      rw [hfn] at h1
      rw [htn] at h2
      simp only [lengthOf] at h1 h2
      omega
    rw [recompose_COLOR, recompose_COLOR]
    refine recomposeColorValue_congr E tween _ fn tn tn tn hfn htn htn htn rfl ?_
    intro j r
    rw [hp]
    exact getNumberProgress_end E fn tn hfin htin hl r j
  | PATH => rfl
  | COMPLEX =>
    simp only [wellFormed, Bool.and_eq_true, decide_eq_true_eq] at hwf hwt
    obtain ⟨fn, hfn, hfin⟩ := finiteNums_eq _ hwf.2.1
    obtain ⟨tn, htn, htin⟩ := finiteNums_eq _ hwt.2.1
    have hl : fn.length = tn.length := by
      have h1 := hlen rfl
      rw [hfn, htn] at h1
      exact h1
    rw [recompose_COMPLEX, recompose_COMPLEX]
    refine recomposeComplexValue_congr E tween _ fn tn tn tn hfn htn htn htn rfl rfl
      rfl rfl ?_
    intro j
    rw [hp]
    exact getNumberProgress_end E fn tn hfin htin hl tween.round j

theorem recompose_start_endpoint_witness :
    wellFormed .COMPLEX startComplexTween.from_ = true ∧
    wellFormed .COMPLEX startComplexTween.to_ = true ∧
    (ValueType.COMPLEX = .COMPLEX →
      lengthOf startComplexTween.from_.numbers = lengthOf startComplexTween.to_.numbers) ∧
    differencesInRange .COMPLEX startComplexTween.from_ startComplexTween.to_ = true ∧
    startAgree .COMPLEX startComplexTween.from_ startComplexTween.to_ = true ∧
    startComplexTween.progress = .fin 0 ∧
    recompose sampleExt .COMPLEX startComplexTween =
      recompose sampleExt .COMPLEX { startComplexTween with to_ := startComplexTween.from_ } ∧
    recompose sampleExt .COMPLEX startComplexTween = some (.str "translate(0px, 0px)") :=
  ⟨by decide, by decide, fun _ => rfl, by decide!, by decide, rfl,
    recompose_start_endpoint sampleExt .COMPLEX startComplexTween (by decide) (by decide)
      (fun _ => rfl) (by decide!) (by decide) rfl,
    by decide!⟩

/-- C5 (counterexample): at progress 0 with no rounding, the UNIT tween from `0px` to `100em`
gives `0em` while its `from` endpoint formats as `0px`; the PATH tween from the path 1 to
the path 7 gives the position `7` on the path of `to` while the `from` endpoint gives `1`;
the COMPLEX tween from `a1b` to `c2d` gives `c1d` while the `from` endpoint gives `a1b`;
the NUMBER tween from 5 to `Infinity`, the value of the string `Infinity`, gives
not-a-number, the difference `to - from` being infinite, while the `from` endpoint gives 5.
The endpoints of each tween are values of one tag. -/
theorem recompose_start_endpoint_fails :
    (wellFormed .UNIT mixedUnitTween.from_ = true ∧ wellFormed .UNIT mixedUnitTween.to_ = true ∧
      mixedUnitTween.progress = .fin 0 ∧ truthy mixedUnitTween.round = false ∧
      recompose sampleExt .UNIT mixedUnitTween = some (.str "0em") ∧
      recompose sampleExt .UNIT { mixedUnitTween with to_ := mixedUnitTween.from_ } =
        some (.str "0px")) ∧
    (wellFormed .PATH mixedPathTween.from_ = true ∧ wellFormed .PATH mixedPathTween.to_ = true ∧
      mixedPathTween.progress = .fin 0 ∧ truthy mixedPathTween.round = false ∧
      recompose sampleExt .PATH mixedPathTween = some (.str "7") ∧
      recompose sampleExt .PATH { mixedPathTween with to_ := mixedPathTween.from_ } =
        some (.str "1")) ∧
    (wellFormed .COMPLEX mixedComplexTween.from_ = true ∧
      wellFormed .COMPLEX mixedComplexTween.to_ = true ∧
      lengthOf mixedComplexTween.from_.numbers = lengthOf mixedComplexTween.to_.numbers ∧
      mixedComplexTween.progress = .fin 0 ∧ truthy mixedComplexTween.round = false ∧
      recompose sampleExt .COMPLEX mixedComplexTween = some (.str "c1d") ∧
      recompose sampleExt .COMPLEX { mixedComplexTween with to_ := mixedComplexTween.from_ } =
        some (.str "a1b")) ∧
    (decomposeValue sampleExt (.num (.fin 5)) = some infiniteNumberTween.from_ ∧
      decomposeValue sampleExt (.str "Infinity") = some infiniteNumberTween.to_ ∧
      infiniteNumberTween.progress = .fin 0 ∧ truthy infiniteNumberTween.round = false ∧
      recompose sampleExt .NUMBER infiniteNumberTween = some (.num .nan) ∧
      recompose sampleExt .NUMBER { infiniteNumberTween with to_ := infiniteNumberTween.from_ } =
        some (.num (.fin 5))) := by
  refine ⟨⟨by decide, by decide, rfl, rfl, by decide!, by decide!⟩,
    ⟨by decide, by decide, rfl, rfl, by decide!, by decide!⟩,
    ⟨by decide, by decide, rfl, rfl, rfl, by decide!, by decide!⟩,
    ⟨by decide!, by decide!, rfl, rfl, by decide!, by decide!⟩⟩

theorem recompose_end_endpoint_witness :
    wellFormed .COMPLEX endComplexTween.from_ = true ∧
    wellFormed .COMPLEX endComplexTween.to_ = true ∧
    (ValueType.COMPLEX = .COMPLEX →
      lengthOf endComplexTween.from_.numbers = lengthOf endComplexTween.to_.numbers) ∧
    endComplexTween.progress = .fin 1 ∧
    recompose sampleExt .COMPLEX endComplexTween =
      recompose sampleExt .COMPLEX { endComplexTween with from_ := endComplexTween.to_ } ∧
    recompose sampleExt .COMPLEX endComplexTween = some (.str "translate(10px, 20px)") :=
  ⟨by decide, by decide, fun _ => rfl, rfl,
    recompose_end_endpoint sampleExt .COMPLEX endComplexTween (by decide) (by decide)
      (fun _ => rfl) rfl,
    by decide!⟩

/-! ## Recomposition of COLOR values -/

theorem getNumberProgress_one (E : Ext) (fn tn : List JSNum) (p : JSNum) (i : Nat) :
    getNumberProgress E (idxNum fn i) (idxNum tn i) (.num p) (.num (.fin 1)) =
      E.round (channel fn tn p i) (.num (.fin 1)) := by
  simp [getNumberProgress, channel, truthy]

theorem getNumberProgress_unset (E : Ext) (fn tn : List JSNum) (p : JSNum) (i : Nat) :
    getNumberProgress E (idxNum fn i) (idxNum tn i) (.num p) .undefined = channel fn tn p i := by
  simp [getNumberProgress, channel, truthy]

theorem recomposeColorValue_eq (E : Ext) (tween : Tween) (fn tn : List JSNum)
    (hf : tween.from_.numbers = some fn) (ht : tween.to_.numbers = some tn) :
    recomposeColorValue E tween =
      some (.str (rgbaString
        ++ (toStr (E.round (channel fn tn tween.progress 0) (.num (.fin 1))) ++ commaString)
        ++ (toStr (E.round (channel fn tn tween.progress 1) (.num (.fin 1))) ++ commaString)
        ++ (toStr (E.round (channel fn tn tween.progress 2) (.num (.fin 1))) ++ commaString)
        ++ (toStr (channel fn tn tween.progress 3) ++ closeParenthesisString))) := by
  simp only [recomposeColorValue, hf, ht, getNumberProgress_one, getNumberProgress_unset,
    jsAdd_str_right, jsAdd_str_left, toStr]

/-- C7: for every COLOR tween, `recomposeColorValue` returns the `rgba(` prefix, then the
first three channels, each linearly interpolated and rounded by `round` with the fixed
argument 1, each followed by the comma, then the alpha component and the closing
parenthesis; the output does not depend on `tween.round`.  From `(0,0,0,0)` to
`(255,255,255,1)` at progress 0.5 the three colour components are each `round(127.5, 1)`
and the alpha component is `0.5`; with the nearest integer, halves going up, they are 128. -/
theorem recomposeColorValue_shape (E : Ext) (tween : Tween) (fn tn : List JSNum)
    (hf : tween.from_.numbers = some fn) (ht : tween.to_.numbers = some tn) :
    recomposeColorValue E tween =
        some (.str (rgbaString
          ++ (toStr (E.round (channel fn tn tween.progress 0) (.num (.fin 1))) ++ commaString)
          ++ (toStr (E.round (channel fn tn tween.progress 1) (.num (.fin 1))) ++ commaString)
          ++ (toStr (E.round (channel fn tn tween.progress 2) (.num (.fin 1))) ++ commaString)
          ++ (toStr (channel fn tn tween.progress 3) ++ closeParenthesisString)))
      ∧ (∀ r : JSVal, recomposeColorValue E { tween with round := r } =
          recomposeColorValue E tween)
      ∧ (∀ r : JSVal, recomposeColorValue E (sampleColorTween r) =
          some (.str ("rgba("
            ++ (toStr (E.round (.num (.fin (255 / 2))) (.num (.fin 1))) ++ ",")
            ++ (toStr (E.round (.num (.fin (255 / 2))) (.num (.fin 1))) ++ ",")
            ++ (toStr (E.round (.num (.fin (255 / 2))) (.num (.fin 1))) ++ ",")
            ++ "0.5)")))
      ∧ (∀ r : JSVal, recomposeColorValue sampleExt (sampleColorTween r) =
          some (.str "rgba(128,128,128,0.5)")) := by
  have hc : ∀ i, i < 3 → channel [.fin 0, .fin 0, .fin 0, .fin 0]
      [.fin 255, .fin 255, .fin 255, .fin 1] (.fin (1 / 2)) i = .num (.fin (255 / 2)) := by
    intro i hi
    have : i = 0 ∨ i = 1 ∨ i = 2 := by omega
    rcases this with h | h | h <;> subst h <;>
      simp [channel, idxNum, optNum, lerp_num, interpolate_fin] <;> norm_num
  have hsample : ∀ (E2 : Ext) (r : JSVal), recomposeColorValue E2 (sampleColorTween r) =
      some (.str ("rgba("
        ++ (toStr (E2.round (.num (.fin (255 / 2))) (.num (.fin 1))) ++ ",")
        ++ (toStr (E2.round (.num (.fin (255 / 2))) (.num (.fin 1))) ++ ",")
        ++ (toStr (E2.round (.num (.fin (255 / 2))) (.num (.fin 1))) ++ ",")
        ++ "0.5)")) := by
    intro E2 r
    rw [recomposeColorValue_eq E2 (sampleColorTween r) [.fin 0, .fin 0, .fin 0, .fin 0]
      [.fin 255, .fin 255, .fin 255, .fin 1] rfl rfl]
    have h3 : toStr (channel [.fin 0, .fin 0, .fin 0, .fin 0]
        [.fin 255, .fin 255, .fin 255, .fin 1] (.fin (1 / 2)) 3) = "0.5" := by decide!
    simp only [sampleColorTween, hc 0 (by omega), hc 1 (by omega), hc 2 (by omega), h3]
    rfl
  refine ⟨recomposeColorValue_eq E tween fn tn hf ht, fun r => rfl, hsample E, ?_⟩
  intro r
  rw [hsample sampleExt r]
  decide!

theorem recomposeColorValue_shape_witness :
    (sampleColorTween .undefined).from_.numbers = some [.fin 0, .fin 0, .fin 0, .fin 0] ∧
    (sampleColorTween .undefined).to_.numbers = some [.fin 255, .fin 255, .fin 255, .fin 1] ∧
    recomposeColorValue sampleExt (sampleColorTween .undefined) =
      some (.str (rgbaString
        ++ (toStr (sampleExt.round (channel [.fin 0, .fin 0, .fin 0, .fin 0]
            [.fin 255, .fin 255, .fin 255, .fin 1] (sampleColorTween .undefined).progress 0)
            (.num (.fin 1))) ++ commaString)
        ++ (toStr (sampleExt.round (channel [.fin 0, .fin 0, .fin 0, .fin 0]
            [.fin 255, .fin 255, .fin 255, .fin 1] (sampleColorTween .undefined).progress 1)
            (.num (.fin 1))) ++ commaString)
        ++ (toStr (sampleExt.round (channel [.fin 0, .fin 0, .fin 0, .fin 0]
            [.fin 255, .fin 255, .fin 255, .fin 1] (sampleColorTween .undefined).progress 2)
            (.num (.fin 1))) ++ commaString)
        ++ (toStr (channel [.fin 0, .fin 0, .fin 0, .fin 0]
            [.fin 255, .fin 255, .fin 255, .fin 1] (sampleColorTween .undefined).progress 3)
          ++ closeParenthesisString))) :=
  ⟨rfl, rfl,
    (recomposeColorValue_shape sampleExt (sampleColorTween .undefined)
      [.fin 0, .fin 0, .fin 0, .fin 0] [.fin 255, .fin 255, .fin 255, .fin 1] rfl rfl).1⟩

/-- C8 (amended): for every COLOR tween with four channels on each endpoint, the fourth
(alpha) component written by `recomposeColorValue` is the linear interpolation of the alpha
channels of `from` and `to`, never rounded: the text before it and the alpha component are
the same for every value of `tween.round`. -/
theorem recomposeColorValue_alpha_unrounded (E : Ext) (tween : Tween)
    (f0 f1 f2 f3 t0 t1 t2 t3 : JSNum)
    (hf : tween.from_.numbers = some [f0, f1, f2, f3])
    (ht : tween.to_.numbers = some [t0, t1, t2, t3]) :
    ∃ rgb : String, ∀ r : JSVal,
      recomposeColorValue E { tween with round := r } =
        some (.str (rgb ++ numToString (interpolate f3 t3 tween.progress) ++ ")")) := by
  refine ⟨rgbaString
    ++ (toStr (E.round (channel [f0, f1, f2, f3] [t0, t1, t2, t3] tween.progress 0)
        (.num (.fin 1))) ++ commaString)
    ++ (toStr (E.round (channel [f0, f1, f2, f3] [t0, t1, t2, t3] tween.progress 1)
        (.num (.fin 1))) ++ commaString)
    ++ (toStr (E.round (channel [f0, f1, f2, f3] [t0, t1, t2, t3] tween.progress 2)
        (.num (.fin 1))) ++ commaString), ?_⟩
  intro r
  rw [recomposeColorValue_eq E { tween with round := r } [f0, f1, f2, f3] [t0, t1, t2, t3] hf ht]
  have h3 : channel [f0, f1, f2, f3] [t0, t1, t2, t3] tween.progress 3 =
      .num (interpolate f3 t3 tween.progress) := by
    simp [channel, idxNum, optNum, lerp_num]
  simp only [h3, toStr, closeParenthesisString, String.append_assoc]

theorem recomposeColorValue_alpha_unrounded_witness :
    (sampleColorTween (.num (.fin 1))).from_.numbers = some [.fin 0, .fin 0, .fin 0, .fin 0] ∧
    (sampleColorTween (.num (.fin 1))).to_.numbers =
      some [.fin 255, .fin 255, .fin 255, .fin 1] ∧
    ∃ rgb : String, ∀ r : JSVal,
      recomposeColorValue sampleExt { sampleColorTween (.num (.fin 1)) with round := r } =
        some (.str (rgb ++ numToString
          (interpolate (.fin 0) (.fin 1) (sampleColorTween (.num (.fin 1))).progress) ++ ")")) :=
  ⟨rfl, rfl,
    recomposeColorValue_alpha_unrounded sampleExt (sampleColorTween (.num (.fin 1)))
      (.fin 0) (.fin 0) (.fin 0) (.fin 0) (.fin 255) (.fin 255) (.fin 255) (.fin 1) rfl rfl⟩

/-- C8 (counterexample): with `tween.round` set to 1, from `(0,0,0,0)` to `(255,255,255,1)`
at progress 0.5, the alpha component is written `0.5`, while `round` of the interpolated
alpha 0.5 and `tween.round` is 1. -/
theorem recomposeColorValue_alpha_not_rounded :
    truthy (sampleColorTween (.num (.fin 1))).round = true ∧
    recomposeColorValue sampleExt (sampleColorTween (.num (.fin 1))) =
      some (.str "rgba(128,128,128,0.5)") ∧
    toStr (sampleExt.round (.num (interpolate (.fin 0) (.fin 1) (.fin (1 / 2))))
      (sampleColorTween (.num (.fin 1))).round) = "1" := by
  refine ⟨by decide!, by decide!, by decide!⟩

/-! ## Decomposition -/

/-- C9: for every raw input that coerces to a finite number `q`, `decomposeValue` returns
the value tagged NUMBER whose number is `q`, with no unit, operator, numbers, strings or
path; so do a finite number itself and the string `1.5e3`, whose number is 1500. -/
theorem decomposeValue_finite_number (E : Ext) (raw : JSVal) (q : ℚ)
    (h : toNumber raw = .fin q) :
    decomposeValue E raw =
        some { type := .NUMBER, number := some (.fin q), unit := none, operator := none,
               numbers := none, strings := none, path := none }
      ∧ decomposeValue E (.num (.fin q)) = some (numberValue q)
      ∧ decomposeValue E (.str "1.5e3") = some (numberValue 1500) := by
  refine ⟨?_, ?_, ?_⟩
  · simp [decomposeValue, h, JSNum.isNaN]
  · simp [decomposeValue, toNumber, JSNum.isNaN, numberValue]
  · have h2 : toNumber (.str "1.5e3") = .fin 1500 := by decide!
    simp [decomposeValue, h2, JSNum.isNaN, numberValue]

theorem decomposeValue_finite_number_witness :
    toNumber (.str "42") = .fin 42 ∧
    (decomposeValue sampleExt (.str "42") =
        some { type := .NUMBER, number := some (.fin 42), unit := none, operator := none,
               numbers := none, strings := none, path := none }
      ∧ decomposeValue sampleExt (.num (.fin 42)) = some (numberValue 42)
      ∧ decomposeValue sampleExt (.str "1.5e3") = some (numberValue 1500)) :=
  ⟨by decide!, decomposeValue_finite_number sampleExt (.str "42") 42 (by decide!)⟩

/-- C10 (amended): for every raw input other than `undefined` (a number, a string, a path
descriptor, a plain object, `null` or a boolean) and every choice of the imported functions,
`decomposeValue` returns a typed value and does not throw. -/
theorem decomposeValue_total (E : Ext) (raw : JSVal) (h : raw ≠ .undefined) :
    ∃ v : Value, decomposeValue E raw = some v := by
  rw [← Option.isSome_iff_exists]
  cases raw with
  | undefined => exact absurd rfl h
  | null => rfl
  | bool b => cases b <;> rfl
  | num n =>
    cases n with
    | nan =>
      have hrel : relativeValuesExecRgx (toStr (.num .nan)) = none := by decide!
      simp [decomposeValue, toNumber, JSNum.isNaN, hrel]
    | pinf => rfl
    | ninf => rfl
    | fin q => rfl
  | str s =>
    by_cases hn : (toNumber (.str s)).isNaN = true
    · cases hrel : relativeValuesExecRgx s with
      | none => simp [decomposeValue, hn, toStr, hrel]
      | some m => simp [decomposeValue, hn, toStr, hrel]
    · simp [decomposeValue, hn]
  | path p => rfl
  | obj o =>
    have hrel : relativeValuesExecRgx (toStr (.obj o)) = none := rfl
    simp [decomposeValue, toNumber, JSNum.isNaN, hrel]

theorem decomposeValue_total_witness :
    JSVal.str "auto" ≠ .undefined ∧ ∃ v : Value, decomposeValue sampleExt (.str "auto") = some v :=
  ⟨by decide, decomposeValue_total sampleExt (.str "auto") (by decide)⟩

/-- C10 (counterexample): on `undefined`, which does not coerce to a number, reading the
property `isPath` throws. -/
theorem decomposeValue_undefined_throws : decomposeValue sampleExt .undefined = none := by
  decide!

/-! ## `getRelativeValue` on operators -/

/-- C14: for all numbers `x` and `y`, `getRelativeValue` with `+`, `-` and `*` returns
`x + y`, `x - y` and `x * y`; on finite numbers these are the rational sum, difference and
product, and `(10, 5)` gives 15, 5 and 50. -/
theorem getRelativeValue_operators (x y : JSNum) :
    getRelativeValue (.num x) (.num y) (.str "+") = .num (x.add y)
      ∧ getRelativeValue (.num x) (.num y) (.str "-") = .num (x.sub y)
      ∧ getRelativeValue (.num x) (.num y) (.str "*") = .num (x.mul y)
      ∧ (∀ a b : ℚ,
          getRelativeValue (.num (.fin a)) (.num (.fin b)) (.str "+") = .num (.fin (a + b))
          ∧ getRelativeValue (.num (.fin a)) (.num (.fin b)) (.str "-") = .num (.fin (a - b))
          ∧ getRelativeValue (.num (.fin a)) (.num (.fin b)) (.str "*") = .num (.fin (a * b)))
      ∧ getRelativeValue (.num (.fin 10)) (.num (.fin 5)) (.str "+") = .num (.fin 15)
      ∧ getRelativeValue (.num (.fin 10)) (.num (.fin 5)) (.str "-") = .num (.fin 5)
      ∧ getRelativeValue (.num (.fin 10)) (.num (.fin 5)) (.str "*") = .num (.fin 50) := by
  have hplus : ∀ u v : JSNum, getRelativeValue (.num u) (.num v) (.str "+") = .num (u.add v) := by
    intro u v
    simp [getRelativeValue, jsAdd_num]
  have hminus : ∀ u v : JSNum,
      getRelativeValue (.num u) (.num v) (.str "-") = .num (u.sub v) := by
    intro u v
    have h1 : (JSVal.str "-" = JSVal.str "+") = False := by decide
    simp [getRelativeValue, jsSub_num, h1]
  have htimes : ∀ u v : JSNum,
      getRelativeValue (.num u) (.num v) (.str "*") = .num (u.mul v) := by
    intro u v
    have h1 : (JSVal.str "*" = JSVal.str "+") = False := by decide
    have h2 : (JSVal.str "*" = JSVal.str "-") = False := by decide
    simp [getRelativeValue, jsMul_num, h1, h2]
  have hfin : ∀ a b : ℚ,
      getRelativeValue (.num (.fin a)) (.num (.fin b)) (.str "+") = .num (.fin (a + b))
      ∧ getRelativeValue (.num (.fin a)) (.num (.fin b)) (.str "-") = .num (.fin (a - b))
      ∧ getRelativeValue (.num (.fin a)) (.num (.fin b)) (.str "*") = .num (.fin (a * b)) := by
    intro a b
    refine ⟨?_, ?_, ?_⟩
    · rw [hplus]; simp [JSNum.add]
    · rw [hminus]; simp [JSNum.sub, JSNum.add, JSNum.neg, sub_eq_add_neg]
    · rw [htimes]; simp [JSNum.mul]
  refine ⟨hplus x y, hminus x y, htimes x y, hfin, ?_, ?_, ?_⟩
  · rw [(hfin 10 5).1]; norm_num
  · rw [(hfin 10 5).2.1]; norm_num
  · rw [(hfin 10 5).2.2]; norm_num

/-- C20: for every operator other than `+`, `-` and `*`, and all `x` and `y`,
`getRelativeValue` matches no case of its `switch`: it raises no error and returns
`undefined`, which is no number. -/
theorem getRelativeValue_other_operator (x y operator : JSVal)
    (hp : operator ≠ .str "+") (hm : operator ≠ .str "-") (ht : operator ≠ .str "*") :
    getRelativeValue x y operator = .undefined
      ∧ ∀ n : JSNum, getRelativeValue x y operator ≠ .num n := by
  have h : getRelativeValue x y operator = .undefined := by
    simp [getRelativeValue, hp, hm, ht]
  exact ⟨h, fun n hn => by rw [h] at hn; cases hn⟩

theorem getRelativeValue_other_operator_witness :
    JSVal.str "/" ≠ .str "+" ∧ JSVal.str "/" ≠ .str "-" ∧ JSVal.str "/" ≠ .str "*" ∧
    (getRelativeValue (.num (.fin 10)) (.num (.fin 5)) (.str "/") = .undefined
      ∧ ∀ n : JSNum, getRelativeValue (.num (.fin 10)) (.num (.fin 5)) (.str "/") ≠ .num n) :=
  ⟨by decide, by decide, by decide,
    getRelativeValue_other_operator (.num (.fin 10)) (.num (.fin 5)) (.str "/")
      (by decide) (by decide) (by decide)⟩

/-! ## `getFunctionValue` -/

/-- C15: for every function `fn` and animatable, `getFunctionValue` calls
`fn(target, id, total)` and returns its result when it is truthy and 0 when it is falsy, as
`undefined`, `null`, not-a-number, 0, the empty string and `false` are; when `fn` returns
not-a-number, `decomposeValue` of the result is the NUMBER value 0; a value that is no
function is returned unchanged. -/
theorem getFunctionValue_fallback (E : Ext) (fn : JSVal → JSVal → JSVal → JSVal)
    (animatable : Animatable) (v : JSVal) :
    getFunctionValue (.fnc fn) animatable =
        (if truthy (fn animatable.target animatable.id animatable.total)
          then fn animatable.target animatable.id animatable.total else .num (.fin 0))
      ∧ (fn animatable.target animatable.id animatable.total ∈
            [JSVal.undefined, .null, .num .nan, .num (.fin 0), .str "", .bool false] →
          getFunctionValue (.fnc fn) animatable = .num (.fin 0))
      ∧ (fn animatable.target animatable.id animatable.total = .num .nan →
          decomposeValue E (getFunctionValue (.fnc fn) animatable) = some (numberValue 0))
      ∧ getFunctionValue (.value v) animatable = v := by
  refine ⟨rfl, ?_, ?_, rfl⟩
  · intro hmem
    have hf : truthy (fn animatable.target animatable.id animatable.total) = false := by
      simp only [List.mem_cons, List.mem_singleton, List.not_mem_nil, or_false] at hmem
      rcases hmem with h | h | h | h | h | h <;> rw [h] <;> simp [truthy]
    simp [getFunctionValue, hf]
  · intro hnan
    have hf : getFunctionValue (.fnc fn) animatable = .num (.fin 0) := by
      simp [getFunctionValue, hnan, truthy]
    rw [hf]
    simp [decomposeValue, toNumber, JSNum.isNaN, numberValue]

theorem getFunctionValue_fallback_witness :
    getFunctionValue (.fnc (fun _ _ _ => .num .nan)) sampleAnimatable = .num (.fin 0) ∧
    decomposeValue sampleExt (getFunctionValue (.fnc (fun _ _ _ => .num .nan)) sampleAnimatable) =
      some (numberValue 0) ∧
    getFunctionValue (.value (.str "10px")) sampleAnimatable = .str "10px" :=
  ⟨(getFunctionValue_fallback sampleExt (fun _ _ _ => .num .nan) sampleAnimatable
      (.str "10px")).2.1 (by simp),
    (getFunctionValue_fallback sampleExt (fun _ _ _ => .num .nan) sampleAnimatable
      (.str "10px")).2.2.1 rfl,
    (getFunctionValue_fallback sampleExt (fun _ _ _ => .num .nan) sampleAnimatable
      (.str "10px")).2.2.2⟩

/-! ## Recomposition of PATH values -/

/-- C16: for every PATH tween whose `to` has the path `pth`, the number `n` and the unit
`u`, `recomposePathValue` returns the sample of `pth` at `progress * n` concatenated with
`u`; when `tween.round` is set, `round` is applied to that concatenated string; the `from`
endpoint never influences the output. -/
theorem recomposePathValue_samples (E : Ext) (tween : Tween) (pth : PathRef) (n : JSNum)
    (u : String) (hpath : tween.to_.path = some pth) (hn : tween.to_.number = some n)
    (hu : tween.to_.unit = some u) :
    recomposePathValue E tween =
        some (if truthy tween.round then
                E.round (.str (toStr (E.getPathProgress (.path pth)
                  (.num (tween.progress.mul n))) ++ u)) tween.round
              else .str (toStr (E.getPathProgress (.path pth)
                  (.num (tween.progress.mul n))) ++ u))
      ∧ ∀ f : Value, recomposePathValue E { tween with from_ := f } =
          recomposePathValue E tween := by
  refine ⟨?_, fun f => rfl⟩
  simp only [recomposePathValue, hpath, hn, hu, optPath, optNum, optStr, jsMul_num,
    jsAdd_str_right]
  split <;> rfl

theorem recomposePathValue_samples_witness :
    samplePathTween.to_.path = some { ref := 7, totalLength := .fin 10 } ∧
    samplePathTween.to_.number = some (.fin 10) ∧
    samplePathTween.to_.unit = some "" ∧
    (recomposePathValue sampleExt samplePathTween =
        some (if truthy samplePathTween.round then
                sampleExt.round (.str (toStr (sampleExt.getPathProgress
                  (.path { ref := 7, totalLength := .fin 10 })
                  (.num (samplePathTween.progress.mul (.fin 10)))) ++ "")) samplePathTween.round
              else .str (toStr (sampleExt.getPathProgress
                  (.path { ref := 7, totalLength := .fin 10 })
                  (.num (samplePathTween.progress.mul (.fin 10)))) ++ ""))
      ∧ ∀ f : Value, recomposePathValue sampleExt { samplePathTween with from_ := f } =
          recomposePathValue sampleExt samplePathTween) ∧
    recomposePathValue sampleExt samplePathTween = some (.str "12") :=
  ⟨rfl, rfl, rfl,
    recomposePathValue_samples sampleExt samplePathTween { ref := 7, totalLength := .fin 10 }
      (.fin 10) "" rfl rfl rfl,
    by decide!⟩

/-! ## Decomposition of path descriptors -/

/-- C17: a path-position descriptor does not coerce to a number, and `decomposeValue`
returns for it the value tagged PATH whose path is the descriptor itself, whose number is
its `totalLength` and whose unit is the empty string, with no other field. -/
theorem decomposeValue_path (E : Ext) (p : PathRef) :
    toNumber (.path p) = .nan
      ∧ decomposeValue E (.path p) =
          some { type := .PATH, path := some p, number := some p.totalLength, unit := some "",
                 operator := none, numbers := none, strings := none } := by
  exact ⟨rfl, rfl⟩

/-! ## The numbers and strings of COMPLEX values -/

/-- The shape of every COMPLEX result of `decomposeValue`, on any raw input. -/
theorem decomposeValue_complex_shape_raw (E : Ext) (raw : JSVal) (v : Value)
    (hd : decomposeValue E raw = some v) (hty : v.type = .COMPLEX) :
    v = complexValue (toStr raw) := by
  cases raw with
  | str s => exact decomposeValue_complex_shape E s v hd hty
  | undefined => cases hd
  | null => cases hd; simp at hty
  | bool b => cases b <;> (cases hd; simp at hty)
  | path p => cases hd; simp at hty
  | num n =>
    cases n with
    | nan =>
      have hrel : relativeValuesExecRgx (toStr (.num .nan)) = none := by decide!
      simp only [decomposeValue, toNumber, JSNum.isNaN, hrel] at hd
      simp only [Bool.not_true, Bool.false_eq_true, if_false, Option.some.injEq] at hd
      subst hd
      rw [(decomposeTail_complex E _ _ hty).1]
      simp [jsAdd_str_right, toStr, emptyString, complexValue]
    | pinf => cases hd; simp at hty
    | ninf => cases hd; simp at hty
    | fin q => cases hd; simp at hty
  | obj o =>
    have hrel : relativeValuesExecRgx (toStr (.obj o)) = none := rfl
    simp only [decomposeValue, toNumber, JSNum.isNaN, hrel] at hd
    simp only [Bool.not_true, Bool.false_eq_true, if_false, Option.some.injEq] at hd
    subst hd
    rw [(decomposeTail_complex E _ _ hty).1]
    simp [jsAdd_str_right, toStr, emptyString, complexValue]

/-- With no match, the split is the whole input. -/
theorem split_of_no_match (m : List Char → Option Nat) (cs : List Char)
    (h : matchAllAux m 0 cs = []) : splitAux m 0 [] cs = [cs] := by
  have hlen := length_split m cs 0 []
  have hweave := weave_split m cs 0 []
  rw [h] at hlen hweave
  cases hp : splitAux m 0 [] cs with
  | nil => rw [hp] at hlen; simp at hlen
  | cons p0 ps =>
    rw [hp] at hlen hweave
    cases ps with
    | nil => simpa [weave] using hweave
    | cons q qs => simp at hlen

theorem complexValue_numbers_of_tokens (s : String) (h : numericTokens s ≠ []) :
    (complexValue s).numbers =
      some ((numericTokens s).map (fun t => stringToNumber (String.mk t))) := by
  unfold numericTokens at h ⊢
  simp only [complexValue, strMatch]
  cases hm : matchAllAux digitWithExponentRgx 0 s.data with
  | nil => exact absurd hm h
  | cons t ts => simp [List.map_map, Function.comp_def]

theorem complexValue_of_no_token (s : String) (h : numericTokens s = []) :
    (complexValue s).numbers = some [.fin 0] ∧ (complexValue s).strings = some [s] := by
  unfold numericTokens at h
  simp [complexValue, strMatch, strSplit, h, split_of_no_match _ _ h]

/-- C12: every COMPLEX value returned by `decomposeValue` has a non-empty `numbers` list:
when the string of the input holds no numeric token, `numbers` is exactly `[0]` and
`strings` is the one-element list holding that whole string; otherwise `numbers` holds the
numbers of the numeric tokens, which stand in the string in left-to-right order between the
pieces of the split. -/
theorem decomposeValue_complex_numbers (E : Ext) (raw : JSVal) (v : Value)
    (hd : decomposeValue E raw = some v) (hty : v.type = .COMPLEX) :
    (∃ n ns, v.numbers = some (n :: ns))
      ∧ (numericTokens (toStr raw) = [] →
          v.numbers = some [.fin 0] ∧ v.strings = some [toStr raw])
      ∧ (numericTokens (toStr raw) ≠ [] →
          v.numbers = some ((numericTokens (toStr raw)).map
            (fun t => stringToNumber (String.mk t))))
      ∧ weave (splitAux digitWithExponentRgx 0 [] (toStr raw).data) (numericTokens (toStr raw)) =
          (toStr raw).data := by
  rw [decomposeValue_complex_shape_raw E raw v hd hty]
  refine ⟨?_, complexValue_of_no_token _, complexValue_numbers_of_tokens _, ?_⟩
  · by_cases h : numericTokens (toStr raw) = []
    · exact ⟨.fin 0, [], (complexValue_of_no_token _ h).1⟩
    · rw [complexValue_numbers_of_tokens _ h]
      cases ht : numericTokens (toStr raw) with
      | nil => exact absurd ht h
      | cons t ts => exact ⟨_, _, rfl⟩
  · simpa [numericTokens] using weave_split digitWithExponentRgx (toStr raw).data 0 []

theorem decomposeValue_complex_numbers_witness :
    decomposeValue sampleExt (.str "translate(10px, 20px)") = some translateValue ∧
    translateValue.type = .COMPLEX ∧
    ((∃ n ns, translateValue.numbers = some (n :: ns))
      ∧ (numericTokens (toStr (.str "translate(10px, 20px)")) = [] →
          translateValue.numbers = some [.fin 0] ∧
          translateValue.strings = some [toStr (.str "translate(10px, 20px)")])
      ∧ (numericTokens (toStr (.str "translate(10px, 20px)")) ≠ [] →
          translateValue.numbers = some ((numericTokens (toStr (.str "translate(10px, 20px)"))).map
            (fun t => stringToNumber (String.mk t))))
      ∧ weave (splitAux digitWithExponentRgx 0 [] (toStr (.str "translate(10px, 20px)")).data)
          (numericTokens (toStr (.str "translate(10px, 20px)"))) =
          (toStr (.str "translate(10px, 20px)")).data) :=
  ⟨by decide!, rfl,
    decomposeValue_complex_numbers sampleExt (.str "translate(10px, 20px)") translateValue
      (by decide!) rfl⟩

/-- C18 (amended): for every string that `decomposeValue` tags COMPLEX and that holds at
least one numeric token, wherever the tokens stand, the `strings` list has length
`numbers.length + 1`; for a string with no numeric token both lists have length 1. -/
theorem complex_strings_length (E : Ext) (s : String) (v : Value)
    (hd : decomposeValue E (.str s) = some v) (hty : v.type = .COMPLEX) :
    (numericTokens s ≠ [] → lengthOfStrings v.strings = lengthOf v.numbers + 1)
      ∧ (numericTokens s = [] → lengthOfStrings v.strings = 1 ∧ lengthOf v.numbers = 1) := by
  rw [decomposeValue_complex_shape E s v hd hty]
  constructor
  · intro h
    rw [complexValue_numbers_of_tokens s h]
    simp [complexValue, strSplit, lengthOfStrings, lengthOf, numericTokens, length_split]
  · intro h
    obtain ⟨h1, h2⟩ := complexValue_of_no_token s h
    rw [h1, h2]
    exact ⟨rfl, rfl⟩

theorem complex_strings_length_witness :
    decomposeValue sampleExt (.str "translate(10px, 20px)") = some translateValue ∧
    translateValue.type = .COMPLEX ∧
    ((numericTokens "translate(10px, 20px)" ≠ [] →
        lengthOfStrings translateValue.strings = lengthOf translateValue.numbers + 1)
      ∧ (numericTokens "translate(10px, 20px)" = [] →
        lengthOfStrings translateValue.strings = 1 ∧ lengthOf translateValue.numbers = 1)) :=
  ⟨by decide!, rfl,
    complex_strings_length sampleExt "translate(10px, 20px)" translateValue (by decide!) rfl⟩

/-- C18 (counterexample): `auto` begins and ends with non-numeric text and is tagged
COMPLEX; its `strings` list has length 1 and its `numbers` list has length 1, not 0. -/
theorem complex_strings_length_fails :
    edgesNonNumeric "auto" = true ∧
    decomposeValue sampleExt (.str "auto") = some autoValue ∧
    autoValue.type = .COMPLEX ∧
    lengthOfStrings autoValue.strings = 1 ∧
    lengthOf autoValue.numbers + 1 = 2 := by
  refine ⟨by decide!, by decide!, rfl, rfl, rfl⟩

/-! ## COMPLEX tweens whose numbers differ in length -/

theorem JSNum.add_nan (a : JSNum) : a.add .nan = .nan := by
  cases a <;> rfl

theorem JSNum.sub_nan (a : JSNum) : a.sub .nan = .nan := by
  cases a <;> rfl

theorem JSNum.mul_nan (a : JSNum) : a.mul .nan = .nan := by
  cases a <;> rfl

theorem recomposeComplexValue_walks_aux (E : Ext) (tween : Tween) (s0 : String)
    (rest : List String) (fn tn : List JSNum)
    (hs : tween.to_.strings = some (s0 :: rest)) (hn : tween.to_.numbers = some tn)
    (hf : tween.from_.numbers = some fn) :
    recomposeComplexValue E tween =
      some (.str (s0 ++ joinStrings ((List.range tn.length).map
        (complexPiece E tween.progress tween.round fn tn (s0 :: rest))))) := by
  unfold recomposeComplexValue
  rw [hs, hn, hf]
  cases hl : tn.length with
  | zero => simp [hl, idxStr, optStr, joinStrings]
  | succ l =>
    simp only [hl, idxStr, List.getElem?_cons_zero, optStr]
    rw [complexLoop_str, List.range_eq_range']

/-- Interpolating from an absent number gives not-a-number. -/
theorem getNumberProgress_absent (E : Ext) (fn tn : List JSNum) (p : JSNum) (r : JSVal)
    (i : Nat) (hi : fn.length ≤ i) :
    getNumberProgress E (idxNum fn i) (idxNum tn i) (.num p) r =
      if truthy r then E.round (.num .nan) r else .num .nan := by
  have h1 : idxNum fn i = .undefined := by
    simp [idxNum, List.getElem?_eq_none hi, optNum]
  have h2 : jsAdd .undefined (jsMul (.num p) (jsSub (idxNum tn i) .undefined)) = .num .nan := by
    simp [jsAdd, jsMul, jsSub, isStringLike, toNumber, JSNum.sub_nan, JSNum.mul_nan, JSNum.add]
  simp only [getNumberProgress, h1, h2]

theorem complexPiece_congr (E : Ext) (p : JSNum) (r : JSVal) (fn fn2 tn : List JSNum)
    (strings : List String) (i : Nat) (h : fn2[i]? = fn[i]?) :
    complexPiece E p r fn2 tn strings i = complexPiece E p r fn tn strings i := by
  simp only [complexPiece, idxNum, h]

/-- C19: for every COMPLEX tween, whatever the length of `from.numbers`,
`recomposeComplexValue` raises no error and emits exactly `to.numbers.length` pieces;
the numbers of `from` beyond `to.numbers.length` are ignored; for each index at or beyond
`from.numbers.length` the interpolated number is not-a-number; the piece of an index
depends on `from.numbers` only through the entry at that index. -/
theorem recomposeComplexValue_mismatch (E : Ext) (tween : Tween) (s0 : String)
    (rest : List String) (fn tn : List JSNum)
    (hs : tween.to_.strings = some (s0 :: rest)) (hn : tween.to_.numbers = some tn)
    (hf : tween.from_.numbers = some fn) :
    recomposeComplexValue E tween =
        some (.str (s0 ++ joinStrings ((List.range tn.length).map
          (complexPiece E tween.progress tween.round fn tn (s0 :: rest)))))
      ∧ ((List.range tn.length).map
          (complexPiece E tween.progress tween.round fn tn (s0 :: rest))).length = tn.length
      ∧ recomposeComplexValue E
          { tween with from_ := { tween.from_ with numbers := some (fn.take tn.length) } } =
          recomposeComplexValue E tween
      ∧ (∀ i, fn.length ≤ i →
          getNumberProgress E (idxNum fn i) (idxNum tn i) (.num tween.progress) tween.round =
            if truthy tween.round then E.round (.num .nan) tween.round else .num .nan)
      ∧ (∀ (fn2 : List JSNum) (i : Nat), fn2[i]? = fn[i]? →
          complexPiece E tween.progress tween.round fn2 tn (s0 :: rest) i =
            complexPiece E tween.progress tween.round fn tn (s0 :: rest) i) := by
  have hwalk := (recomposeComplexValue_walks_aux E tween s0 rest fn tn hs hn hf)
  refine ⟨hwalk, by simp, ?_, ?_, ?_⟩
  · rw [hwalk,
      recomposeComplexValue_walks_aux E
        { tween with from_ := { tween.from_ with numbers := some (fn.take tn.length) } }
        s0 rest (fn.take tn.length) tn hs hn rfl]
    have hmap : (List.range tn.length).map
          (complexPiece E tween.progress tween.round (fn.take tn.length) tn (s0 :: rest)) =
        (List.range tn.length).map
          (complexPiece E tween.progress tween.round fn tn (s0 :: rest)) := by
      apply List.map_congr_left
      intro i hi
      apply complexPiece_congr
      rw [List.getElem?_take_of_lt (List.mem_range.mp hi)]
    show some (JSVal.str (s0 ++ joinStrings ((List.range tn.length).map
        (complexPiece E tween.progress tween.round (fn.take tn.length) tn (s0 :: rest))))) = _
    rw [hmap]
  · intro i hi
    exact getNumberProgress_absent E fn tn tween.progress tween.round i hi
  · intro fn2 i h
    exact complexPiece_congr E tween.progress tween.round fn fn2 tn (s0 :: rest) i h

theorem recomposeComplexValue_mismatch_witness :
    shortFromTween.to_.strings = some ("translate(" :: ["px, ", "px)"]) ∧
    shortFromTween.to_.numbers = some [.fin 10, .fin 20] ∧
    shortFromTween.from_.numbers = some [.fin 0] ∧
    recomposeComplexValue sampleExt shortFromTween =
      some (.str ("translate(" ++ joinStrings ((List.range [JSNum.fin 10, .fin 20].length).map
        (complexPiece sampleExt shortFromTween.progress shortFromTween.round
          [.fin 0] [.fin 10, .fin 20] ("translate(" :: ["px, ", "px)"]))))) ∧
    recomposeComplexValue sampleExt shortFromTween = some (.str "translate(5px, NaNpx)") :=
  ⟨rfl, rfl, rfl,
    (recomposeComplexValue_mismatch sampleExt shortFromTween "translate(" ["px, ", "px)"]
      [.fin 0] [.fin 10, .fin 20] rfl rfl rfl).1,
    by decide!⟩

/-! ## Relative operators and the catch-all -/

theorem dropWhile_append_singleton {α : Type} (p : α → Bool) (a : α) (ha : p a = false)
    (xs : List α) : (xs ++ [a]).dropWhile p = xs.dropWhile p ++ [a] := by
  induction xs with
  | nil => simp [List.dropWhile, ha]
  | cons x xs ih =>
    by_cases hx : p x = true
    · simp [List.dropWhile, hx, ih]
    · simp [List.dropWhile, hx]

theorem trimEnd_cons {α : Type} (p : α → Bool) (a : α) (ha : p a = false) (l : List α) :
    ((a :: l).reverse.dropWhile p).reverse = a :: (l.reverse.dropWhile p).reverse := by
  rw [List.reverse_cons, dropWhile_append_singleton p a ha]
  simp

theorem parseDecimal_operator (c : Char) (hc : c = '+' ∨ c = '-' ∨ c = '*') (r : List Char) :
    parseDecimal (c :: '=' :: r) = .nan := by
  rcases hc with h | h | h <;> subst h <;>
    simp [parseDecimal, parseUnsignedDecimal, spanDigits, List.span_eq_take_drop,
      List.takeWhile, List.dropWhile, isDigit]

theorem stringToNumber_operator (s : String) (c : Char) (rest : List Char)
    (hs : s.data = c :: '=' :: rest) (hc : c = '+' ∨ c = '-' ∨ c = '*') :
    stringToNumber s = .nan := by
  have hw : isStrWhiteSpace c = false := by
    rcases hc with h | h | h <;> subst h <;> decide
  have hw2 : isStrWhiteSpace '=' = false := by decide
  have htrim : trimChars s.data = c :: '=' :: (rest.reverse.dropWhile isStrWhiteSpace).reverse := by
    rw [hs]
    unfold trimChars
    rw [List.dropWhile_cons_of_neg (by simp [hw]), trimEnd_cons _ _ hw, trimEnd_cons _ _ hw2]
  unfold stringToNumber
  rw [htrim]
  rcases hc with h | h | h <;> subst h <;> simp [parseDecimal_operator]

theorem relativeValuesExecRgx_some (s m : String) (h : relativeValuesExecRgx s = some m) :
    ∃ c rest, s.data = c :: '=' :: rest ∧ (c = '+' ∨ c = '-' ∨ c = '*') ∧
      m = String.mk [c, '='] := by
  unfold relativeValuesExecRgx at h
  split at h
  · rename_i c rest hdata
    split at h
    · rename_i hc
      cases h
      refine ⟨c, rest, hdata, ?_, rfl⟩
      simpa [or_assoc] using hc
    · cases h
  · cases h

theorem relativeValuesExecRgx_operator (s : String) (c : Char) (rest : List Char)
    (hs : s.data = c :: '=' :: rest) (hc : c = '+' ∨ c = '-' ∨ c = '*') :
    relativeValuesExecRgx s = some (String.mk [c, '=']) := by
  unfold relativeValuesExecRgx
  rw [hs]
  rcases hc with h | h | h <;> subst h <;> simp

/-- A string with an operator prefix goes to the tail of `decomposeValue` with the two
characters of the prefix stripped and its first character recorded. -/
theorem decomposeValue_prefixed (E : Ext) (s : String) (c : Char) (rest : List Char)
    (hs : s.data = c :: '=' :: rest) (hc : c = '+' ∨ c = '-' ∨ c = '*') :
    decomposeValue E (.str s) =
      some (decomposeTail E (.str (String.mk rest)) (some (String.mk [c]))) := by
  simp [decomposeValue, toNumber, stringToNumber_operator s c rest hs hc, JSNum.isNaN, toStr,
    relativeValuesExecRgx_operator s c rest hs hc, hs]

theorem decomposeTail_operator (E : Ext) (val : JSVal) (op : Option String) :
    (decomposeTail E val op).operator = op := by
  unfold decomposeTail
  split
  · rfl
  · split
    · rfl
    · split <;> rfl

theorem decomposeTail_prefixed_type (E : Ext) (val : JSVal) (c : Char) :
    (decomposeTail E val (some (String.mk [c]))).type = .UNIT ∨
      (decomposeTail E val (some (String.mk [c]))).type = .NUMBER := by
  unfold decomposeTail
  split
  · exact Or.inl rfl
  · have ht : truthy (optStr (some (String.mk [c]))) = true := by
      simp [optStr, truthy, String.ext_iff]
    simp [ht]

theorem unitsExecRgx_append (t n u : String) (h : unitsExecRgx t = some (n, u)) :
    n ++ u = t := by
  unfold unitsExecRgx at h
  split at h
  · cases h
  · dsimp only at h
    split at h
    · cases h
      simp [mk_append]
    · cases h

/-- C13: for every string that begins with `+=`, `-=` or `*=`, `decomposeValue` strips the
two characters of the prefix and records its first character as the operator; a remainder of
the form number-then-unit gives the UNIT value with that number, that unit and the operator;
any other remainder, a bare number among them, gives the NUMBER value whose number is the
remainder coerced to a number, with the operator.  A string without such a prefix never
gets an operator. -/
theorem decomposeValue_relative (E : Ext) (s : String) (c : Char) (rest : List Char)
    (hs : s.data = c :: '=' :: rest) (hc : c = '+' ∨ c = '-' ∨ c = '*') :
    (∀ n u : String, unitsExecRgx (String.mk rest) = some (n, u) →
        n ++ u = String.mk rest ∧
        decomposeValue E (.str s) =
          some { type := .UNIT, number := some (stringToNumber n), unit := some u,
                 operator := some (String.mk [c]) })
      ∧ (unitsExecRgx (String.mk rest) = none →
          decomposeValue E (.str s) =
            some { type := .NUMBER, number := some (stringToNumber (String.mk rest)),
                   operator := some (String.mk [c]) })
      ∧ (∀ (s2 : String) (v : Value), relativeValuesExecRgx s2 = none →
          decomposeValue E (.str s2) = some v → v.operator = none) := by
  have ht : truthy (optStr (some (String.mk [c]))) = true := by
    simp [optStr, truthy, String.ext_iff]
  refine ⟨?_, ?_, ?_⟩
  · intro n u hu
    refine ⟨unitsExecRgx_append _ n u hu, ?_⟩
    rw [decomposeValue_prefixed E s c rest hs hc]
    simp [decomposeTail, toStr, hu]
  · intro hu
    rw [decomposeValue_prefixed E s c rest hs hc]
    simp [decomposeTail, toStr, hu, ht, toNumber]
  · intro s2 v hrel hd
    dsimp only [decomposeValue] at hd
    split at hd
    · cases hd; rfl
    · simp only [toStr, hrel] at hd
      cases hd
      exact decomposeTail_operator E _ _

theorem decomposeValue_relative_witness :
    "+=5px".data = '+' :: '=' :: ['5', 'p', 'x'] ∧
    ('+' = '+' ∨ '+' = '-' ∨ '+' = '*') ∧
    unitsExecRgx (String.mk ['5', 'p', 'x']) = some ("5", "px") ∧
    ("5" ++ "px" = String.mk ['5', 'p', 'x'] ∧
      decomposeValue sampleExt (.str "+=5px") =
        some { type := .UNIT, number := some (stringToNumber "5"), unit := some "px",
               operator := some (String.mk ['+']) }) ∧
    stringToNumber "5" = .fin 5 ∧
    decomposeValue sampleExt (.str "*=2") =
      some { type := .NUMBER, number := some (.fin 2), operator := some "*" } :=
  ⟨rfl, Or.inl rfl, by decide!,
    (decomposeValue_relative sampleExt "+=5px" '+' ['5', 'p', 'x'] rfl (Or.inl rfl)).1
      "5" "px" (by decide!),
    by decide!, by decide!⟩

/-- C11 (amended): every string with no relative-operator prefix that is not a number, not
a number followed by a unit and not a recognized colour expression is decomposed into the
value tagged COMPLEX; every string with a relative-operator prefix is decomposed into a
UNIT or a NUMBER value, whatever follows the prefix. -/
theorem decomposeValue_catch_all (E : Ext) (s : String)
    (hnum : (stringToNumber s).isNaN = true) (hrel : relativeValuesExecRgx s = none)
    (hunit : unitsExecRgx s = none) (hcol : E.isCol (.str s) = false) :
    (∃ v : Value, decomposeValue E (.str s) = some v ∧ v.type = .COMPLEX)
      ∧ ∀ s2 m : String, relativeValuesExecRgx s2 = some m →
          ∃ v : Value, decomposeValue E (.str s2) = some v ∧
            (v.type = .UNIT ∨ v.type = .NUMBER) := by
  constructor
  · exact ⟨complexValue s, decomposeValue_str_complex E s hnum hrel hunit hcol, rfl⟩
  · intro s2 m hm
    obtain ⟨c, rest, hdata, hc, _⟩ := relativeValuesExecRgx_some s2 m hm
    exact ⟨_, decomposeValue_prefixed E s2 c rest hdata hc, decomposeTail_prefixed_type E _ c⟩

theorem decomposeValue_catch_all_witness :
    (stringToNumber "1px solid").isNaN = true ∧
    relativeValuesExecRgx "1px solid" = none ∧
    unitsExecRgx "1px solid" = none ∧
    sampleExt.isCol (.str "1px solid") = false ∧
    ((∃ v : Value, decomposeValue sampleExt (.str "1px solid") = some v ∧ v.type = .COMPLEX)
      ∧ ∀ s2 m : String, relativeValuesExecRgx s2 = some m →
          ∃ v : Value, decomposeValue sampleExt (.str s2) = some v ∧
            (v.type = .UNIT ∨ v.type = .NUMBER)) :=
  ⟨by decide!, by decide!, by decide!, by decide!,
    decomposeValue_catch_all sampleExt "1px solid" (by decide!) (by decide!) (by decide!)
      (by decide!)⟩

/-- C11 (counterexample): `+=abc` is not a number, not a number followed by a unit, not a
relative-operator prefix followed by a numeric delta and not a colour expression, and it is
decomposed into a NUMBER value, whose number is not-a-number. -/
theorem decomposeValue_catch_all_fails :
    (stringToNumber "+=abc").isNaN = true ∧
    unitsExecRgx "+=abc" = none ∧
    isRelativeDelta "+=abc" = false ∧
    sampleExt.isCol (.str "+=abc") = false ∧
    decomposeValue sampleExt (.str "+=abc") =
      some { type := .NUMBER, number := some .nan, operator := some "+" } := by
  refine ⟨by decide!, by decide!, by decide!, by decide!, by decide!⟩

end Values
